import Mathlib

/-!
# Manifest validation (`pkg/manifest/validate.go`)

A shallow embedding of the manifest validator: the name grammar
`^[a-z]{1}[a-z0-9-]*$`, the four rule groups `validateEnv`, `validateResources`,
`validateServices`, `validateTimers`, and the aggregator `validate`.

Go strings are modelled by Lean strings (sequences of code points), Go `int`
by `Int` (the validator only compares), a Go `(value, error)` result by
`Except GoError value`, and a slice by a list.
-/

namespace Convox

/-! ## Regular expressions (the fragment of Go `regexp` syntax the validator uses) -/

/-- Abstract syntax of the regular expressions needed for `nameValidator`. -/
inductive Regexp where
  /-- The assertion `^`: at the beginning of the text. -/
  | beginText : Regexp
  /-- The assertion `$` (no `m` flag): at the end of the text. -/
  | endText : Regexp
  /-- A character class `[...]` given by its inclusive ranges. -/
  | charClass (ranges : List (Char × Char)) : Regexp
  /-- The counted repetition `r{n}`. -/
  | repeatN (r : Regexp) (n : Nat) : Regexp
  /-- The repetition `r*`. -/
  | star (r : Regexp) : Regexp
  /-- The concatenation `r₁r₂`. -/
  | cat (r₁ r₂ : Regexp) : Regexp

/-- A position in the text being matched: how many characters lie before it
and the characters that remain. -/
structure Pos where
  off : Nat
  rest : List Char
  deriving DecidableEq, Repr

/-- Membership of a character in a class given by inclusive code-point ranges. -/
def inRanges (ranges : List (Char × Char)) (c : Char) : Bool :=
  ranges.any (fun r => decide (r.1.toNat ≤ c.toNat) && decide (c.toNat ≤ r.2.toNat))

/-- The positions reached by applying `f` exactly `n` times. -/
def iterate (f : Pos → List Pos) : Nat → Pos → List Pos
  | 0, p => [p]
  | n + 1, p => (f p).flatMap (iterate f n)

/-- The positions reached by applying `f` at most `fuel` times. -/
def closure (f : Pos → List Pos) : Nat → Pos → List Pos
  | 0, p => [p]
  | fuel + 1, p => p :: (f p).flatMap (closure f fuel)

/-- All positions at which a match of the expression starting at `p` can end.
For `r*` the number of iterations is bounded by the number of remaining
characters: an iteration that consumes nothing reaches no new position. -/
def Regexp.ends : Regexp → Pos → List Pos
  | .beginText, p => if p.off = 0 then [p] else []
  | .endText, p => if p.rest.isEmpty then [p] else []
  | .charClass ranges, p =>
    match p.rest with
    | [] => []
    | c :: cs => if inRanges ranges c then [⟨p.off + 1, cs⟩] else []
  | .repeatN r n, p => iterate r.ends n p
  | .star r, p => closure r.ends p.rest.length p
  | .cat r₁ r₂, p => (r₁.ends p).flatMap r₂.ends

/-- The method `(*Regexp).MatchString`: whether the text contains a match of the
expression, starting at any offset. -/
def Regexp.MatchString (re : Regexp) (s : String) : Bool :=
  (List.range (s.data.length + 1)).any
    (fun i => !(re.ends ⟨i, s.data.drop i⟩).isEmpty)

/-- The compiled expression `^[a-z]{1}[a-z0-9-]*$` (validate.go, line 14). -/
def nameValidator : Regexp :=
  .cat .beginText
    (.cat (.repeatN (.charClass [('a', 'z')]) 1)
      (.cat (.star (.charClass [('a', 'z'), ('0', '9'), ('-', '-')])) .endText))

/-- The constant `ValidNameDescription` (validate.go, line 10). -/
def ValidNameDescription : String := "must contain only lowercase alphanumeric and dashes"

/-! ## Character predicates used to state the grammar -/

/-- A lowercase ASCII letter `a`..`z`. -/
def isLowerASCII (c : Char) : Prop := 97 ≤ c.toNat ∧ c.toNat ≤ 122

/-- An ASCII digit `0`..`9`. -/
def isDigitASCII (c : Char) : Prop := 48 ≤ c.toNat ∧ c.toNat ≤ 57

/-- An uppercase ASCII letter `A`..`Z`. -/
def isUpperASCII (c : Char) : Prop := 65 ≤ c.toNat ∧ c.toNat ≤ 90

/-- The naming grammar in words: the text is not empty, its first character is a
lowercase ASCII letter, and each further character is a lowercase ASCII letter,
an ASCII digit or a dash. -/
def NameGrammar (s : String) : Prop :=
  ∃ c cs, s.data = c :: cs ∧ isLowerASCII c ∧
    ∀ d ∈ cs, isLowerASCII d ∨ isDigitASCII d ∨ d = '-'

/-! ## The packages `strings` and `unicode` -/

/-- The function `unicode.IsSpace`: the white space characters of Unicode
(in Latin-1: tab, line feed, vertical tab, form feed, carriage return, space,
U+0085, U+00A0; beyond it the characters with property `White_Space`). -/
def unicode.IsSpace (c : Char) : Bool :=
  decide (c.toNat ∈ [0x09, 0x0A, 0x0B, 0x0C, 0x0D, 0x20, 0x85, 0xA0, 0x1680,
    0x2028, 0x2029, 0x202F, 0x205F, 0x3000]) ||
  (decide (0x2000 ≤ c.toNat) && decide (c.toNat ≤ 0x200A))

/-- The function `strings.TrimSpace`: the text without its leading and trailing
white space. -/
def strings.TrimSpace (s : String) : String :=
  ⟨((s.data.dropWhile unicode.IsSpace).reverse.dropWhile unicode.IsSpace).reverse⟩

/-- The function `strings.HasPrefix`: whether the text begins with `pre`. -/
def strings.HasPrefix (s pre : String) : Bool :=
  pre.data.isPrefixOf s.data

/-- The function `strings.Contains`: whether `substr` occurs within the text. -/
def strings.Contains (s substr : String) : Bool :=
  s.data.tails.any (fun t => substr.data.isPrefixOf t)

/-! ## Data model -/

/-- A Go `error` value, observed through its method `Error()`. -/
structure GoError where
  Error : String
  deriving DecidableEq, Repr

/-- A resource of the manifest: the fields `Name` and `Type` read by the validator. -/
structure Resource where
  Name : String
  «Type» : String
  deriving DecidableEq, Repr

/-- The scaling window `Deployment` of a service (Go `int` fields). -/
structure ServiceDeployment where
  Minimum : Int
  Maximum : Int
  deriving DecidableEq, Repr

/-- Modelled from the spec: an entry of a service's resource-map, the type
`ServiceResource` declared outside validate.go; the validator reads its `Name`,
the referenced resource; `Alias` is the local alias the spec describes. -/
structure ServiceResource where
  Alias : String
  Name : String
  deriving DecidableEq, Repr

/-- A service of the manifest. -/
structure Service where
  Name : String
  Deployment : ServiceDeployment
  /-- Modelled from the spec: the result of the method `ResourceMap()`, declared
  outside validate.go: the ordered resource-map of the service. -/
  ResourceMap : List ServiceResource
  deriving DecidableEq, Repr

/-- A timer of the manifest. -/
structure Timer where
  Name : String
  Service : String
  Schedule : String
  deriving DecidableEq, Repr

/-- The resolved environment returned by `ServiceEnvironment`; the validator
discards it. -/
abbrev Environment := List (String × String)

/-- The manifest as the validator sees it: the three ordered collections and the
three lookup methods it calls. The methods `Resource`, `Service` and
`ServiceEnvironment` are declared outside validate.go and are taken as
parameters. -/
structure Manifest where
  Resources : List Resource
  Services : List Service
  Timers : List Timer
  Resource : String → Except GoError Resource
  Service : String → Except GoError Service
  ServiceEnvironment : String → Except GoError Environment

/-- The three kinds of named entity. -/
inductive Entity where
  | resource
  | service
  | timer
  deriving DecidableEq, Repr

/-- The word for an entity kind in an error message. -/
def Entity.word : Entity → String
  | .resource => "resource"
  | .service => "service"
  | .timer => "timer"

/-- The errors the validator returns, one constructor for each place where
validate.go appends to `errs`; `Violation.Error` gives the text. -/
inductive Violation where
  /-- An error of `ServiceEnvironment`, appended as it is (line 33). -/
  | EnvironmentResolutionError (err : GoError)
  /-- `"<entity> name %s invalid, %s"` (lines 45, 61, 97). -/
  | InvalidName (entity : Entity) (name : String)
  /-- `"resource %q has blank type"` (line 49). -/
  | BlankType (resource : String)
  /-- `"service %s deployment minimum can not be less than 0"` (line 65). -/
  | DeploymentMinTooLow (service : String)
  /-- `"service %s deployment minimum can not be greater than 100"` (line 69). -/
  | DeploymentMinTooHigh (service : String)
  /-- `"service %s deployment maximum can not be less than 100"` (line 73). -/
  | DeploymentMaxTooLow (service : String)
  /-- `"service %s deployment maximum can not be greater than 200"` (line 77). -/
  | DeploymentMaxTooHigh (service : String)
  /-- `"service %s references a resource that does not exist: %s"` (line 83). -/
  | DanglingResourceReference (service resource : String)
  /-- `"timer %s references a service that does not exist: %s"` (line 102). -/
  | DanglingServiceReference (timer service : String)
  /-- `"timer %s invalid, schedule cannot contain ?"` (line 107). -/
  | InvalidSchedule (timer : String)
  deriving DecidableEq, Repr

/-- The text of an error, the result of `fmt.Errorf` at its place in validate.go.
The verb `%s` inserts a string as it is; the quoting of the verb `%q` is the
parameter `quote`. -/
def Violation.Error (quote : String → String) : Violation → String
  | .EnvironmentResolutionError err => err.Error
  | .InvalidName entity name =>
    entity.word ++ " name " ++ name ++ " invalid, " ++ ValidNameDescription
  | .BlankType resource => "resource " ++ quote resource ++ " has blank type"
  | .DeploymentMinTooLow service =>
    "service " ++ service ++ " deployment minimum can not be less than 0"
  | .DeploymentMinTooHigh service =>
    "service " ++ service ++ " deployment minimum can not be greater than 100"
  | .DeploymentMaxTooLow service =>
    "service " ++ service ++ " deployment maximum can not be less than 100"
  | .DeploymentMaxTooHigh service =>
    "service " ++ service ++ " deployment maximum can not be greater than 200"
  | .DanglingResourceReference service resource =>
    "service " ++ service ++ " references a resource that does not exist: " ++ resource
  | .DanglingServiceReference timer service =>
    "timer " ++ timer ++ " references a service that does not exist: " ++ service
  | .InvalidSchedule timer => "timer " ++ timer ++ " invalid, schedule cannot contain ?"

/-- The kinds of error of the taxonomy, one for each constructor of `Violation`. -/
inductive Kind where
  | EnvironmentResolutionError
  | InvalidName
  | BlankType
  | DeploymentMinTooLow
  | DeploymentMinTooHigh
  | DeploymentMaxTooLow
  | DeploymentMaxTooHigh
  | DanglingResourceReference
  | DanglingServiceReference
  | InvalidSchedule
  deriving DecidableEq, Repr

/-- The kind of an error. -/
def Violation.kind : Violation → Kind
  | .EnvironmentResolutionError _ => .EnvironmentResolutionError
  | .InvalidName _ _ => .InvalidName
  | .BlankType _ => .BlankType
  | .DeploymentMinTooLow _ => .DeploymentMinTooLow
  | .DeploymentMinTooHigh _ => .DeploymentMinTooHigh
  | .DeploymentMaxTooLow _ => .DeploymentMaxTooLow
  | .DeploymentMaxTooHigh _ => .DeploymentMaxTooHigh
  | .DanglingResourceReference _ _ => .DanglingResourceReference
  | .DanglingServiceReference _ _ => .DanglingServiceReference
  | .InvalidSchedule _ => .InvalidSchedule

/-- Whether an error is one of the four deployment errors. -/
def Violation.isDeployment (v : Violation) : Bool :=
  decide (v.kind ∈ [Kind.DeploymentMinTooLow, Kind.DeploymentMinTooHigh,
    Kind.DeploymentMaxTooLow, Kind.DeploymentMaxTooHigh])

/-- How many of the four conditions `Minimum < 0`, `Minimum > 100`, `Maximum < 100`,
`Maximum > 200` hold. -/
def ServiceDeployment.violatedBounds (d : ServiceDeployment) : Nat :=
  (if d.Minimum < 0 then 1 else 0) + (if d.Minimum > 100 then 1 else 0) +
    (if d.Maximum < 100 then 1 else 0) + (if d.Maximum > 200 then 1 else 0)

/-! ## The rule groups -/

/-- The body of the loop of `validateEnv` (lines 32-34). -/
def Manifest.envStep (m : Manifest) (errs : List Violation) (s : Convox.Service) : List Violation :=
  match m.ServiceEnvironment s.Name with
  | .error err => errs ++ [.EnvironmentResolutionError err]
  | .ok _ => errs

/-- The method `validateEnv` (lines 28-38). -/
def Manifest.validateEnv (m : Manifest) : List Violation :=
  m.Services.foldl m.envStep []

/-- The body of the loop of `validateResources` (lines 44-50). -/
def Manifest.resourceStep (_m : Manifest) (errs : List Violation) (r : Convox.Resource) :
    List Violation :=
  let errs := if !nameValidator.MatchString r.Name then
    errs ++ [.InvalidName .resource r.Name] else errs
  let errs := if strings.TrimSpace r.«Type» = "" then
    errs ++ [.BlankType r.Name] else errs
  errs

/-- The method `validateResources` (lines 40-54). -/
def Manifest.validateResources (m : Manifest) : List Violation :=
  m.Resources.foldl m.resourceStep []

/-- The body of the inner loop of `validateServices` (lines 81-85). -/
def Manifest.resourceRefStep (m : Manifest) (s : Convox.Service) (errs : List Violation)
    (r : ServiceResource) : List Violation :=
  match m.Resource r.Name with
  | .error err =>
    if strings.HasPrefix err.Error "no such resource" then
      errs ++ [.DanglingResourceReference s.Name r.Name]
    else errs
  | .ok _ => errs

/-- The body of the loop of `validateServices` (lines 60-86). -/
def Manifest.serviceStep (m : Manifest) (errs : List Violation) (s : Convox.Service) :
    List Violation :=
  let errs := if !nameValidator.MatchString s.Name then
    errs ++ [.InvalidName .service s.Name] else errs
  let errs := if s.Deployment.Minimum < 0 then
    errs ++ [.DeploymentMinTooLow s.Name] else errs
  let errs := if s.Deployment.Minimum > 100 then
    errs ++ [.DeploymentMinTooHigh s.Name] else errs
  let errs := if s.Deployment.Maximum < 100 then
    errs ++ [.DeploymentMaxTooLow s.Name] else errs
  let errs := if s.Deployment.Maximum > 200 then
    errs ++ [.DeploymentMaxTooHigh s.Name] else errs
  s.ResourceMap.foldl (m.resourceRefStep s) errs

/-- The method `validateServices` (lines 56-90). -/
def Manifest.validateServices (m : Manifest) : List Violation :=
  m.Services.foldl m.serviceStep []

/-- The body of the loop of `validateTimers` (lines 96-108). -/
def Manifest.timerStep (m : Manifest) (errs : List Violation) (t : Timer) : List Violation :=
  let errs := if !nameValidator.MatchString t.Name then
    errs ++ [.InvalidName .timer t.Name] else errs
  let errs := match m.Service t.Service with
    | .error err =>
      if strings.HasPrefix err.Error "no such service" then
        errs ++ [.DanglingServiceReference t.Name t.Service]
      else errs
    | .ok _ => errs
  let errs := if strings.Contains t.Schedule "?" then
    errs ++ [.InvalidSchedule t.Name] else errs
  errs

/-- The method `validateTimers` (lines 92-112). -/
def Manifest.validateTimers (m : Manifest) : List Violation :=
  m.Timers.foldl m.timerStep []

/-- The method `validate` (lines 17-26). -/
def Manifest.validate (m : Manifest) : List Violation :=
  let errs : List Violation := []
  let errs := errs ++ m.validateEnv
  let errs := errs ++ m.validateResources
  let errs := errs ++ m.validateServices
  let errs := errs ++ m.validateTimers
  errs

/-! ## The lookups of a manifest built from its three collections -/

/-- Modelled from the spec: the method `Manifest.Resource`, declared outside
validate.go: the resource of that name, or the "not found" error, whose text
begins with `no such resource`. -/
def findResource (rs : List Resource) (name : String) : Except GoError Resource :=
  match rs.find? (fun r => r.Name = name) with
  | some r => .ok r
  | none => .error ⟨"no such resource: " ++ name⟩

/-- Modelled from the spec: the method `Manifest.Service`, declared outside
validate.go: the service of that name, or the "not found" error, whose text
begins with `no such service`. -/
def findService (ss : List Service) (name : String) : Except GoError Service :=
  match ss.find? (fun s => s.Name = name) with
  | some s => .ok s
  | none => .error ⟨"no such service: " ++ name⟩

/-- The manifest with the given collections, whose lookups search them and
whose environments are resolved by `env`. -/
def Manifest.ofLists (rs : List Convox.Resource) (ss : List Convox.Service) (ts : List Timer)
    (env : String → Except GoError Environment) : Manifest :=
  { Resources := rs, Services := ss, Timers := ts,
    Resource := findResource rs, Service := findService ss, ServiceEnvironment := env }

/-- The manifest of the end-to-end example: resource `db-1` of type `postgres`,
service `api` with deployment 50..150 and the resource-map `db -> db-1`, no timer,
every environment resolving. -/
def exampleManifest : Manifest :=
  Manifest.ofLists [⟨"db-1", "postgres"⟩] [⟨"api", ⟨50, 150⟩, [⟨"db", "db-1"⟩]⟩] []
    (fun _ => .ok [])

/-- A manifest without resources whose only service `api` references the resource
`ghost` under the two aliases `db` and `cache`. -/
def twoReferencesManifest : Manifest :=
  Manifest.ofLists [] [⟨"api", ⟨50, 150⟩, [⟨"db", "ghost"⟩, ⟨"cache", "ghost"⟩]⟩] []
    (fun _ => .ok [])

/-- Whether `Service` fails for the name with the "not found" error, as
`validateTimers` tests it (lines 100-101). -/
def Manifest.serviceNotFound (m : Manifest) (name : String) : Bool :=
  match m.Service name with
  | .error err => strings.HasPrefix err.Error "no such service"
  | .ok _ => false

/-- A manifest whose lookups fail with errors other than "not found": the service
`api` references the resource `db`, the timer `nightly` the service `api`. -/
def failingLookupsManifest : Manifest :=
  { Resources := [], Services := [⟨"api", ⟨50, 150⟩, [⟨"db", "db"⟩]⟩],
    Timers := [⟨"nightly", "api", "0 3 * * *"⟩],
    Resource := fun _ => .error ⟨"resource lookup failed"⟩,
    Service := fun _ => .error ⟨"service lookup failed"⟩,
    ServiceEnvironment := fun _ => .ok [] }

/-- The manifest with its resources replaced; the other collections and the three
lookups are kept. -/
def Manifest.withResources (m : Manifest) (rs : List Convox.Resource) : Manifest :=
  { m with Resources := rs }

/-- The manifest with its services replaced; the other collections and the three
lookups are kept. -/
def Manifest.withServices (m : Manifest) (ss : List Convox.Service) : Manifest :=
  { m with Services := ss }

/-- The manifest with its timers replaced; the other collections and the three
lookups are kept. -/
def Manifest.withTimers (m : Manifest) (ts : List Timer) : Manifest :=
  { m with Timers := ts }

/-- A manifest with the services `api`, `worker` and `web`, in which the environment
of `api` resolves and those of `worker` and `web` do not. -/
def failingEnvManifest : Manifest :=
  Manifest.ofLists [] [⟨"api", ⟨50, 150⟩, []⟩, ⟨"worker", ⟨50, 150⟩, []⟩, ⟨"web", ⟨50, 150⟩, []⟩]
    []
    (fun name =>
      if name = "api" then .ok [] else .error ⟨"environment of " ++ name ++ " unresolved"⟩)

/-- A manifest with the service `API`, whose name is not valid, and the timer
`nightly` of the service `ghost`, which does not exist. -/
def mixedManifest : Manifest :=
  Manifest.ofLists [] [⟨"API", ⟨50, 150⟩, []⟩] [⟨"nightly", "ghost", "0 * * * *"⟩]
    (fun _ => .ok [])

/-- Whether an error is one of the two errors about `Deployment.Minimum`. -/
def Violation.isMinimum (v : Violation) : Bool :=
  decide (v.kind ∈ [Kind.DeploymentMinTooLow, Kind.DeploymentMinTooHigh])

/-- Whether an error is one of the two errors about `Deployment.Maximum`. -/
def Violation.isMaximum (v : Violation) : Bool :=
  decide (v.kind ∈ [Kind.DeploymentMaxTooLow, Kind.DeploymentMaxTooHigh])

/-- The example manifest with its resource `db-1` declared a second time, with the
type `mysql`. -/
def duplicateResourceManifest : Manifest :=
  Manifest.ofLists [⟨"db-1", "postgres"⟩, ⟨"db-1", "mysql"⟩]
    [⟨"api", ⟨50, 150⟩, [⟨"db", "db-1"⟩]⟩] [] (fun _ => .ok [])

/-- Whether `Resource` fails for the name with the "not found" error, as
`validateServices` tests it (lines 81-82). -/
def Manifest.resourceNotFound (m : Manifest) (name : String) : Bool :=
  match m.Resource name with
  | .error err => strings.HasPrefix err.Error "no such resource"
  | .ok _ => false

/-! ## The name grammar -/

theorem mem_closure_self (f : Pos → List Pos) (fuel : Nat) (p : Pos) :
    p ∈ closure f fuel p := by
  cases fuel <;> simp [closure]

theorem closure_charClass_end (ranges : List (Char × Char)) :
    ∀ (cs : List Char) (fuel n : Nat),
      (∃ p ∈ closure (Regexp.charClass ranges).ends fuel ⟨n, cs⟩, p.rest = []) ↔
        cs.length ≤ fuel ∧ ∀ d ∈ cs, inRanges ranges d = true := by
  intro cs
  induction cs with
  | nil =>
    intro fuel n
    simp only [List.length_nil, Nat.zero_le, List.not_mem_nil, false_implies, implies_true,
      and_self, iff_true]
    exact ⟨⟨n, []⟩, mem_closure_self _ _ _, rfl⟩
  | cons d ds ih =>
    intro fuel n
    cases fuel with
    | zero => simp [closure]
    | succ k =>
      by_cases hd : inRanges ranges d = true
      · have := ih k (n + 1)
        simp only [closure, Regexp.ends, hd, if_true, List.flatMap_cons, List.flatMap_nil,
          List.append_nil, List.mem_cons, exists_eq_or_imp, reduceCtorEq, false_or,
          List.length_cons, Nat.add_le_add_iff_right, forall_eq_or_imp, true_and]
        exact this
      · simp [closure, Regexp.ends, hd]

theorem ends_beginText (p : Pos) :
    Regexp.beginText.ends p = if p.off = 0 then [p] else [] := rfl

theorem ends_endText (p : Pos) :
    Regexp.endText.ends p = if p.rest.isEmpty then [p] else [] := rfl

theorem ends_charClass_nil (ranges : List (Char × Char)) (n : Nat) :
    (Regexp.charClass ranges).ends ⟨n, []⟩ = [] := rfl

theorem ends_charClass_cons (ranges : List (Char × Char)) (n : Nat) (c : Char)
    (cs : List Char) :
    (Regexp.charClass ranges).ends ⟨n, c :: cs⟩ =
      if inRanges ranges c then [⟨n + 1, cs⟩] else [] := rfl

theorem ends_repeatN (r : Regexp) (n : Nat) (p : Pos) :
    (Regexp.repeatN r n).ends p = iterate r.ends n p := rfl

theorem ends_star (r : Regexp) (p : Pos) :
    (Regexp.star r).ends p = closure r.ends p.rest.length p := rfl

theorem ends_cat (r₁ r₂ : Regexp) (p : Pos) :
    (Regexp.cat r₁ r₂).ends p = (r₁.ends p).flatMap r₂.ends := rfl

theorem nameValidator_ends (i : Nat) (t : List Char) :
    (nameValidator.ends ⟨i, t⟩).isEmpty = false ↔
      i = 0 ∧ ∃ c cs, t = c :: cs ∧ inRanges [('a', 'z')] c = true ∧
        ∀ d ∈ cs, inRanges [('a', 'z'), ('0', '9'), ('-', '-')] d = true := by
  have hne : ∀ l : List Pos, l.isEmpty = false ↔ ∃ q, q ∈ l := by
    intro l
    cases l <;> simp
  rw [hne]
  by_cases hi : i = 0
  · subst hi
    cases t with
    | nil => simp [nameValidator, ends_cat, ends_beginText, ends_repeatN, iterate,
        ends_charClass_nil]
    | cons c cs =>
      by_cases hc : inRanges [('a', 'z')] c = true
      · have h := closure_charClass_end [('a', 'z'), ('0', '9'), ('-', '-')] cs cs.length 1
        simp only [Nat.le_refl, true_and] at h
        simp only [nameValidator, ends_cat, ends_beginText, ends_repeatN, ends_star,
          ends_charClass_cons, iterate, if_true, List.flatMap_cons,
          List.flatMap_nil, List.append_nil, hc, List.mem_flatMap, List.cons.injEq,
          exists_and_left, true_and]
        constructor
        · rintro ⟨q, p, hp, hq⟩
          refine ⟨c, cs, ⟨rfl, rfl⟩, hc, h.mp ⟨p, hp, ?_⟩⟩
          by_cases he : p.rest.isEmpty = true
          · simpa using he
          · rw [ends_endText] at hq
            simp [he] at hq
        · rintro ⟨c', cs', ⟨rfl, rfl⟩, -, hall⟩
          obtain ⟨p, hp, he⟩ := h.mpr hall
          exact ⟨p, p, hp, by simp [ends_endText, he]⟩
      · simp [nameValidator, ends_cat, ends_beginText, ends_repeatN, iterate,
          ends_charClass_cons, hc]
  · simp [nameValidator, ends_cat, ends_beginText, hi]

theorem toNat_eq_iff (c d : Char) : c.toNat = d.toNat ↔ c = d := by
  constructor
  · intro h
    have := congrArg Char.ofNat h
    simpa using this
  · rintro rfl
    rfl

theorem inRanges_lower (c : Char) : inRanges [('a', 'z')] c = true ↔ isLowerASCII c := by
  have ha : 'a'.toNat = 97 := by decide
  have hz : 'z'.toNat = 122 := by decide
  simp [inRanges, isLowerASCII, ha, hz]

theorem inRanges_tail (c : Char) :
    inRanges [('a', 'z'), ('0', '9'), ('-', '-')] c = true ↔
      isLowerASCII c ∨ isDigitASCII c ∨ c = '-' := by
  have ha : 'a'.toNat = 97 := by decide
  have hz : 'z'.toNat = 122 := by decide
  have h0 : '0'.toNat = 48 := by decide
  have h9 : '9'.toNat = 57 := by decide
  have hd : '-'.toNat = 45 := by decide
  have hdash : c = '-' ↔ c.toNat = 45 := by rw [← hd, toNat_eq_iff]
  simp only [inRanges, isLowerASCII, isDigitASCII, ha, hz, h0, h9, hd, hdash, List.any_cons,
    List.any_nil, Bool.or_false, Bool.or_eq_true, Bool.and_eq_true, decide_eq_true_eq]
  omega

theorem MatchString_nameValidator (s : String) :
    nameValidator.MatchString s = true ↔
      ∃ c cs, s.data = c :: cs ∧ isLowerASCII c ∧
        ∀ d ∈ cs, isLowerASCII d ∨ isDigitASCII d ∨ d = '-' := by
  simp only [Regexp.MatchString, List.any_eq_true, List.mem_range, Bool.not_eq_true',
    nameValidator_ends, inRanges_lower, inRanges_tail]
  constructor
  · rintro ⟨i, -, rfl, h⟩
    simpa using h
  · intro h
    exact ⟨0, by omega, rfl, by simpa using h⟩



/-! ## The loops as per-entity maps -/

theorem foldl_step_eq {α β : Type} (step : List β → α → List β)
    (h : ∀ errs a, step errs a = errs ++ step [] a) (xs : List α) (init : List β) :
    xs.foldl step init = init ++ xs.flatMap (step []) := by
  induction xs generalizing init with
  | nil => simp
  | cons a xs ih =>
    rw [List.foldl_cons, ih, h init a]
    simp

theorem envStep_eq (m : Manifest) (errs : List Violation) (s : Service) :
    m.envStep errs s = errs ++ m.envStep [] s := by
  unfold Manifest.envStep
  cases m.ServiceEnvironment s.Name <;> simp

theorem resourceStep_eq (m : Manifest) (errs : List Violation) (r : Resource) :
    m.resourceStep errs r = errs ++
      ((if nameValidator.MatchString r.Name = true then []
          else [Violation.InvalidName .resource r.Name]) ++
        (if strings.TrimSpace r.«Type» = "" then [Violation.BlankType r.Name] else [])) := by
  unfold Manifest.resourceStep
  by_cases h1 : nameValidator.MatchString r.Name = true <;>
    by_cases h2 : strings.TrimSpace r.«Type» = "" <;> simp [h1, h2]

theorem resourceRefStep_eq (m : Manifest) (s : Service) (errs : List Violation)
    (r : ServiceResource) :
    m.resourceRefStep s errs r = errs ++ m.resourceRefStep s [] r := by
  unfold Manifest.resourceRefStep
  cases m.Resource r.Name with
  | ok v => simp
  | error e => by_cases h : strings.HasPrefix e.Error "no such resource" = true <;> simp [h]

theorem serviceStep_eq (m : Manifest) (errs : List Violation) (s : Service) :
    m.serviceStep errs s = errs ++
      ((if nameValidator.MatchString s.Name = true then []
          else [Violation.InvalidName .service s.Name]) ++
        (if s.Deployment.Minimum < 0 then [Violation.DeploymentMinTooLow s.Name] else []) ++
        (if s.Deployment.Minimum > 100 then [Violation.DeploymentMinTooHigh s.Name] else []) ++
        (if s.Deployment.Maximum < 100 then [Violation.DeploymentMaxTooLow s.Name] else []) ++
        (if s.Deployment.Maximum > 200 then [Violation.DeploymentMaxTooHigh s.Name] else []) ++
        s.ResourceMap.flatMap (m.resourceRefStep s [])) := by
  unfold Manifest.serviceStep
  simp only [foldl_step_eq _ (resourceRefStep_eq m s)]
  by_cases h1 : nameValidator.MatchString s.Name = true <;>
    by_cases h2 : s.Deployment.Minimum < 0 <;>
    by_cases h3 : s.Deployment.Minimum > 100 <;>
    by_cases h4 : s.Deployment.Maximum < 100 <;>
    by_cases h5 : s.Deployment.Maximum > 200 <;> simp [h1, h2, h3, h4, h5]

theorem timerStep_eq (m : Manifest) (errs : List Violation) (t : Timer) :
    m.timerStep errs t = errs ++
      ((if nameValidator.MatchString t.Name = true then []
          else [Violation.InvalidName .timer t.Name]) ++
        (match m.Service t.Service with
          | .error err =>
            if strings.HasPrefix err.Error "no such service" = true then
              [Violation.DanglingServiceReference t.Name t.Service]
            else []
          | .ok _ => []) ++
        (if strings.Contains t.Schedule "?" = true then [Violation.InvalidSchedule t.Name]
          else [])) := by
  unfold Manifest.timerStep
  by_cases h1 : nameValidator.MatchString t.Name = true <;>
    by_cases h3 : strings.Contains t.Schedule "?" = true <;>
    cases m.Service t.Service with
    | ok v => simp [h1, h3]
    | error e =>
      by_cases h2 : strings.HasPrefix e.Error "no such service" = true <;> simp [h1, h2, h3]

theorem validateEnv_eq (m : Manifest) :
    m.validateEnv = m.Services.flatMap (m.envStep []) := by
  simp [Manifest.validateEnv, foldl_step_eq _ (envStep_eq m)]

theorem validateResources_eq (m : Manifest) :
    m.validateResources = m.Resources.flatMap (m.resourceStep []) := by
  have h : ∀ errs r, m.resourceStep errs r = errs ++ m.resourceStep [] r := by
    intro errs r
    rw [resourceStep_eq m errs r, resourceStep_eq m [] r]
    simp
  simp [Manifest.validateResources, foldl_step_eq _ h]

theorem serviceStep_append (m : Manifest) (errs : List Violation) (s : Service) :
    m.serviceStep errs s = errs ++ m.serviceStep [] s := by
  rw [serviceStep_eq m errs s, serviceStep_eq m [] s]
  simp

theorem timerStep_append (m : Manifest) (errs : List Violation) (t : Timer) :
    m.timerStep errs t = errs ++ m.timerStep [] t := by
  rw [timerStep_eq m errs t, timerStep_eq m [] t]
  simp

theorem validateServices_eq (m : Manifest) :
    m.validateServices = m.Services.flatMap (m.serviceStep []) := by
  simp [Manifest.validateServices, foldl_step_eq _ (serviceStep_append m)]

theorem validateTimers_eq (m : Manifest) :
    m.validateTimers = m.Timers.flatMap (m.timerStep []) := by
  simp [Manifest.validateTimers, foldl_step_eq _ (timerStep_append m)]

theorem validate_eq (m : Manifest) :
    m.validate =
      m.validateEnv ++ (m.validateResources ++ (m.validateServices ++ m.validateTimers)) := by
  simp [Manifest.validate]

theorem countP_flatMap_eq {α β : Type} (p : β → Bool) (f : α → List β) (xs : List α) :
    (xs.flatMap f).countP p = (xs.map (fun a => (f a).countP p)).sum := by
  induction xs with
  | nil => rfl
  | cons a xs ih => simp [List.flatMap_cons, List.countP_append, ih]

theorem resourceRefStep_kind (m : Manifest) (s : Service) (r : ServiceResource) :
    ∀ v ∈ m.resourceRefStep s [] r, v = .DanglingResourceReference s.Name r.Name := by
  unfold Manifest.resourceRefStep
  cases m.Resource r.Name with
  | ok v => simp
  | error e => by_cases h : strings.HasPrefix e.Error "no such resource" = true <;> simp [h]

theorem filter_refs_isDeployment (m : Manifest) (s : Service) :
    (s.ResourceMap.flatMap (m.resourceRefStep s [])).filter Violation.isDeployment = [] := by
  rw [List.filter_eq_nil_iff]
  intro v hv
  obtain ⟨r, -, hr⟩ := List.mem_flatMap.mp hv
  rw [resourceRefStep_kind m s r v hr]
  simp [Violation.isDeployment, Violation.kind]

theorem count_flatMap_eq {α : Type} (v : Violation) (f : α → List Violation) (xs : List α) :
    (xs.flatMap f).count v = (xs.map (fun a => (f a).count v)).sum := by
  induction xs with
  | nil => rfl
  | cons a xs ih => simp [List.flatMap_cons, List.count_append, ih]

theorem count_resourceRefStep (m : Manifest) (s : Service) (r : ServiceResource)
    (name n : String) (e : GoError) (he : m.Resource n = .error e)
    (htext : strings.HasPrefix e.Error "no such resource" = true) :
    (m.resourceRefStep s [] r).count (.DanglingResourceReference name n) =
      if s.Name = name ∧ r.Name = n then 1 else 0 := by
  by_cases hr : r.Name = n
  · unfold Manifest.resourceRefStep
    rw [hr, he]
    by_cases hs : s.Name = name <;> simp [htext, hs, List.count_cons]
  · have hk := resourceRefStep_kind m s r
    have h0 : (m.resourceRefStep s [] r).count (.DanglingResourceReference name n) = 0 := by
      rw [List.count_eq_zero]
      intro hmem
      have := hk _ hmem
      simp only [Violation.DanglingResourceReference.injEq] at this
      exact hr this.2.symm
    simp [h0, hr]

theorem count_refs (m : Manifest) (s : Service) (name n : String) (e : GoError)
    (he : m.Resource n = .error e)
    (htext : strings.HasPrefix e.Error "no such resource" = true) (rs : List ServiceResource) :
    (rs.flatMap (m.resourceRefStep s [])).count (.DanglingResourceReference name n) =
      if s.Name = name then rs.countP (fun r => decide (r.Name = n)) else 0 := by
  induction rs with
  | nil => simp
  | cons r rs ih =>
    rw [List.flatMap_cons, List.count_append, ih, count_resourceRefStep m s r name n e he htext]
    by_cases hs : s.Name = name <;> by_cases hr : r.Name = n <;>
      simp [hs, hr, List.countP_cons, Nat.add_comm]

theorem count_serviceStep (m : Manifest) (s : Service) (name n : String) (e : GoError)
    (he : m.Resource n = .error e)
    (htext : strings.HasPrefix e.Error "no such resource" = true) :
    (m.serviceStep [] s).count (.DanglingResourceReference name n) =
      if s.Name = name then s.ResourceMap.countP (fun r => decide (r.Name = n)) else 0 := by
  rw [serviceStep_eq]
  simp only [List.nil_append, List.count_append, count_refs m s name n e he htext]
  by_cases h1 : nameValidator.MatchString s.Name = true <;>
    by_cases h2 : s.Deployment.Minimum < 0 <;>
    by_cases h3 : s.Deployment.Minimum > 100 <;>
    by_cases h4 : s.Deployment.Maximum < 100 <;>
    by_cases h5 : s.Deployment.Maximum > 200 <;>
    simp [h1, h2, h3, h4, h5, List.count_cons]

theorem timerStep_nil (m : Manifest) (t : Timer) :
    m.timerStep [] t =
      (if nameValidator.MatchString t.Name = true then []
        else [Violation.InvalidName .timer t.Name]) ++
      (if m.serviceNotFound t.Service = true then
        [Violation.DanglingServiceReference t.Name t.Service] else []) ++
      (if strings.Contains t.Schedule "?" = true then [Violation.InvalidSchedule t.Name]
        else []) := by
  rw [timerStep_eq]
  unfold Manifest.serviceNotFound
  cases m.Service t.Service with
  | ok v => simp
  | error e => by_cases h : strings.HasPrefix e.Error "no such service" = true <;> simp [h]

theorem mem_timerStep_dangling (m : Manifest) (t : Timer) (name svc : String) :
    Violation.DanglingServiceReference name svc ∈ m.timerStep [] t ↔
      t.Name = name ∧ t.Service = svc ∧ m.serviceNotFound t.Service = true := by
  rw [timerStep_nil]
  by_cases h1 : nameValidator.MatchString t.Name = true <;>
    by_cases h2 : m.serviceNotFound t.Service = true <;>
    by_cases h3 : strings.Contains t.Schedule "?" = true <;>
    simp [h1, h2, h3, eq_comm]

theorem mem_serviceStep_invalidName (m : Manifest) (s : Service)
    (h : nameValidator.MatchString s.Name = false) :
    Violation.InvalidName .service s.Name ∈ m.serviceStep [] s := by
  rw [serviceStep_eq, h]
  simp

theorem filter_serviceStep (m : Manifest) (s : Service) (p : Violation → Bool)
    (hp : ∀ a b, p (Violation.DanglingResourceReference a b) = false) :
    (m.serviceStep [] s).filter p =
      (if nameValidator.MatchString s.Name = true then []
        else [Violation.InvalidName .service s.Name]).filter p ++
      (if s.Deployment.Minimum < 0 then [Violation.DeploymentMinTooLow s.Name]
        else []).filter p ++
      (if s.Deployment.Minimum > 100 then [Violation.DeploymentMinTooHigh s.Name]
        else []).filter p ++
      (if s.Deployment.Maximum < 100 then [Violation.DeploymentMaxTooLow s.Name]
        else []).filter p ++
      (if s.Deployment.Maximum > 200 then [Violation.DeploymentMaxTooHigh s.Name]
        else []).filter p := by
  have hrefs : (s.ResourceMap.flatMap (m.resourceRefStep s [])).filter p = [] := by
    rw [List.filter_eq_nil_iff]
    intro v hv
    obtain ⟨r, -, hr⟩ := List.mem_flatMap.mp hv
    rw [resourceRefStep_kind m s r v hr, hp]
    simp
  rw [serviceStep_eq, List.nil_append]
  simp only [List.filter_append, hrefs, List.append_nil]

theorem filter_isDeployment_serviceStep (m : Manifest) (s : Service) :
    (m.serviceStep [] s).filter Violation.isDeployment =
      (if s.Deployment.Minimum < 0 then [Violation.DeploymentMinTooLow s.Name] else []) ++
      (if s.Deployment.Minimum > 100 then [Violation.DeploymentMinTooHigh s.Name] else []) ++
      (if s.Deployment.Maximum < 100 then [Violation.DeploymentMaxTooLow s.Name] else []) ++
      (if s.Deployment.Maximum > 200 then [Violation.DeploymentMaxTooHigh s.Name]
        else []) := by
  rw [filter_serviceStep m s _ (fun _ _ => by simp [Violation.isDeployment, Violation.kind])]
  simp [apply_ite (List.filter Violation.isDeployment), Violation.isDeployment, Violation.kind]

theorem filter_isMinimum_serviceStep (m : Manifest) (s : Service) :
    (m.serviceStep [] s).filter Violation.isMinimum =
      (if s.Deployment.Minimum < 0 then [Violation.DeploymentMinTooLow s.Name] else []) ++
      (if s.Deployment.Minimum > 100 then [Violation.DeploymentMinTooHigh s.Name]
        else []) := by
  rw [filter_serviceStep m s _ (fun _ _ => by simp [Violation.isMinimum, Violation.kind])]
  simp [apply_ite (List.filter Violation.isMinimum), Violation.isMinimum, Violation.kind]

theorem filter_isMaximum_serviceStep (m : Manifest) (s : Service) :
    (m.serviceStep [] s).filter Violation.isMaximum =
      (if s.Deployment.Maximum < 100 then [Violation.DeploymentMaxTooLow s.Name] else []) ++
      (if s.Deployment.Maximum > 200 then [Violation.DeploymentMaxTooHigh s.Name]
        else []) := by
  rw [filter_serviceStep m s _ (fun _ _ => by simp [Violation.isMaximum, Violation.kind])]
  simp [apply_ite (List.filter Violation.isMaximum), Violation.isMaximum, Violation.kind]

theorem validateServices_withServices (m : Manifest) (ss : List Service) :
    (m.withServices ss).validateServices = ss.flatMap (m.serviceStep []) :=
  validateServices_eq (m.withServices ss)

theorem validateEnv_withServices (m : Manifest) (ss : List Service) :
    (m.withServices ss).validateEnv = ss.flatMap (m.envStep []) :=
  validateEnv_eq (m.withServices ss)

theorem validateResources_withResources (m : Manifest) (rs : List Resource) :
    (m.withResources rs).validateResources = rs.flatMap (m.resourceStep []) :=
  validateResources_eq (m.withResources rs)

theorem validateTimers_withTimers (m : Manifest) (ts : List Timer) :
    (m.withTimers ts).validateTimers = ts.flatMap (m.timerStep []) :=
  validateTimers_eq (m.withTimers ts)

theorem flatMap_congr_mem {α β : Type} (f g : α → List β) (xs : List α)
    (h : ∀ a ∈ xs, f a = g a) : xs.flatMap f = xs.flatMap g := by
  induction xs with
  | nil => rfl
  | cons a xs ih =>
    rw [List.flatMap_cons, List.flatMap_cons, h a (List.mem_cons_self a xs),
      ih (fun b hb => h b (List.mem_cons_of_mem a hb))]

theorem resourceRefStep_nil (m : Manifest) (s : Service) (r : ServiceResource) :
    m.resourceRefStep s [] r =
      if m.resourceNotFound r.Name = true then
        [Violation.DanglingResourceReference s.Name r.Name] else [] := by
  unfold Manifest.resourceRefStep Manifest.resourceNotFound
  cases m.Resource r.Name with
  | ok v => simp
  | error e => by_cases h : strings.HasPrefix e.Error "no such resource" = true <;> simp [h]

theorem refs_eq_map_filter (m : Manifest) (s : Service) (rs : List ServiceResource) :
    rs.flatMap (m.resourceRefStep s []) =
      (rs.filter (fun r => m.resourceNotFound r.Name)).map
        (fun r => Violation.DanglingResourceReference s.Name r.Name) := by
  induction rs with
  | nil => rfl
  | cons r rs ih =>
    rw [List.flatMap_cons, ih, resourceRefStep_nil]
    by_cases h : m.resourceNotFound r.Name = true <;> simp [h]

theorem countP_isDeployment_serviceStep (m : Manifest) (s : Service) :
    (m.serviceStep [] s).countP Violation.isDeployment = s.Deployment.violatedBounds := by
  rw [List.countP_eq_length_filter, filter_isDeployment_serviceStep]
  unfold ServiceDeployment.violatedBounds
  by_cases h2 : s.Deployment.Minimum < 0 <;>
    by_cases h3 : s.Deployment.Minimum > 100 <;>
    by_cases h4 : s.Deployment.Maximum < 100 <;>
    by_cases h5 : s.Deployment.Maximum > 200 <;> simp [h2, h3, h4, h5]

theorem mem_serviceStep_of_isDeployment (m : Manifest) (s : Service) (v : Violation)
    (hv : v ∈ m.serviceStep [] s) (hd : v.isDeployment = true) :
    (v = Violation.DeploymentMinTooLow s.Name ∧ s.Deployment.Minimum < 0) ∨
    (v = Violation.DeploymentMinTooHigh s.Name ∧ s.Deployment.Minimum > 100) ∨
    (v = Violation.DeploymentMaxTooLow s.Name ∧ s.Deployment.Maximum < 100) ∨
    (v = Violation.DeploymentMaxTooHigh s.Name ∧ s.Deployment.Maximum > 200) := by
  have hmem : v ∈ (m.serviceStep [] s).filter Violation.isDeployment :=
    List.mem_filter.mpr ⟨hv, hd⟩
  rw [filter_isDeployment_serviceStep] at hmem
  simp only [List.mem_append] at hmem
  rcases hmem with ((h | h) | h) | h
  · split at h
    · exact Or.inl ⟨by simpa using h, by assumption⟩
    · cases h
  · split at h
    · exact Or.inr (Or.inl ⟨by simpa using h, by assumption⟩)
    · cases h
  · split at h
    · exact Or.inr (Or.inr (Or.inl ⟨by simpa using h, by assumption⟩))
    · cases h
  · split at h
    · exact Or.inr (Or.inr (Or.inr ⟨by simpa using h, by assumption⟩))
    · cases h

/-- The result of `validate` rests on the lookups only through their results for the
names the validator asks for: two manifests with the same resources, services and
timers whose lookups return the same results for the referenced resources, for the
services of the timers and for the names of the services yield the same errors in
the same order, group by group. -/
theorem validate_congr_lookups (m m' : Manifest)
    (hR : m'.Resources = m.Resources) (hS : m'.Services = m.Services)
    (hT : m'.Timers = m.Timers)
    (hres : ∀ s ∈ m.Services, ∀ r ∈ s.ResourceMap, m'.Resource r.Name = m.Resource r.Name)
    (hsvc : ∀ t ∈ m.Timers, m'.Service t.Service = m.Service t.Service)
    (henv : ∀ s ∈ m.Services, m'.ServiceEnvironment s.Name = m.ServiceEnvironment s.Name) :
    m'.validate = m.validate ∧
    (m'.validateEnv = m.validateEnv ∧ m'.validateResources = m.validateResources ∧
      m'.validateServices = m.validateServices ∧ m'.validateTimers = m.validateTimers) := by
  have h1 : m'.validateEnv = m.validateEnv := by
    rw [validateEnv_eq, validateEnv_eq, hS]
    refine flatMap_congr_mem _ _ _ (fun s hs => ?_)
    unfold Manifest.envStep
    rw [henv s hs]
  have h2 : m'.validateResources = m.validateResources := by
    rw [validateResources_eq, validateResources_eq, hR]
    rfl
  have h3 : m'.validateServices = m.validateServices := by
    rw [validateServices_eq, validateServices_eq, hS]
    refine flatMap_congr_mem _ _ _ (fun s hs => ?_)
    rw [serviceStep_eq, serviceStep_eq]
    congr 2
    refine flatMap_congr_mem _ _ _ (fun r hr => ?_)
    unfold Manifest.resourceRefStep
    rw [hres s hs r hr]
  have h4 : m'.validateTimers = m.validateTimers := by
    rw [validateTimers_eq, validateTimers_eq, hT]
    refine flatMap_congr_mem _ _ _ (fun t ht => ?_)
    rw [timerStep_eq, timerStep_eq, hsvc t ht]
  refine ⟨?_, h1, h2, h3, h4⟩
  rw [validate_eq, validate_eq, h1, h2, h3, h4]

/-! ## The string functions -/

theorem TrimSpace_eq_empty (s : String) :
    strings.TrimSpace s = "" ↔ ∀ c ∈ s.data, unicode.IsSpace c = true := by
  have h : strings.TrimSpace s = "" ↔
      ((s.data.dropWhile unicode.IsSpace).reverse.dropWhile unicode.IsSpace).reverse = [] := by
    unfold strings.TrimSpace
    constructor
    · intro h
      exact congrArg String.data h
    · intro h
      rw [h]
  rw [h, List.reverse_eq_nil_iff, List.dropWhile_eq_nil_iff]
  constructor
  · intro hall
    rw [← List.dropWhile_eq_nil_iff]
    cases hd : s.data.dropWhile unicode.IsSpace with
    | nil => rfl
    | cons c cs =>
      have hne : s.data.dropWhile unicode.IsSpace ≠ [] := by simp [hd]
      have h1 := List.head_dropWhile_not unicode.IsSpace s.data hne
      have h2 : (s.data.dropWhile unicode.IsSpace).head hne ∈
          (s.data.dropWhile unicode.IsSpace).reverse := by simp
      rw [hall _ h2] at h1
      cases h1
  · intro hall
    rw [(List.dropWhile_eq_nil_iff).mpr hall]
    simp

theorem Contains_question (s : String) :
    strings.Contains s "?" = true ↔ '?' ∈ s.data := by
  have hq : ("?" : String).data = ['?'] := rfl
  unfold strings.Contains
  rw [hq]
  induction s.data with
  | nil => simp [List.isPrefixOf]
  | cons c cs ih =>
    rw [List.tails_cons, List.any_cons, Bool.or_eq_true]
    simp only [ih, List.isPrefixOf, List.mem_cons, Bool.and_true, beq_iff_eq]

/-! ## When a rule group reports nothing -/

theorem validateEnv_eq_nil (m : Manifest) :
    m.validateEnv = [] ↔ ∀ s ∈ m.Services, ∃ v, m.ServiceEnvironment s.Name = .ok v := by
  rw [validateEnv_eq, List.flatMap_eq_nil_iff]
  refine forall₂_congr fun s _ => ?_
  unfold Manifest.envStep
  cases m.ServiceEnvironment s.Name <;> simp

theorem validateResources_eq_nil (m : Manifest) :
    m.validateResources = [] ↔
      ∀ r ∈ m.Resources, nameValidator.MatchString r.Name = true ∧
        strings.TrimSpace r.«Type» ≠ "" := by
  rw [validateResources_eq, List.flatMap_eq_nil_iff]
  refine forall₂_congr fun r _ => ?_
  rw [resourceStep_eq]
  by_cases h1 : nameValidator.MatchString r.Name = true <;>
    by_cases h2 : strings.TrimSpace r.«Type» = "" <;> simp [h1, h2]

theorem resourceRefStep_eq_nil (m : Manifest) (s : Service) (r : ServiceResource) :
    m.resourceRefStep s [] r = [] ↔
      ∀ e, m.Resource r.Name = .error e →
        strings.HasPrefix e.Error "no such resource" = false := by
  unfold Manifest.resourceRefStep
  cases m.Resource r.Name with
  | ok v => simp
  | error e => by_cases h : strings.HasPrefix e.Error "no such resource" = true <;> simp [h]

theorem validateServices_eq_nil (m : Manifest) :
    m.validateServices = [] ↔
      ∀ s ∈ m.Services, nameValidator.MatchString s.Name = true ∧
        (0 ≤ s.Deployment.Minimum ∧ s.Deployment.Minimum ≤ 100) ∧
        (100 ≤ s.Deployment.Maximum ∧ s.Deployment.Maximum ≤ 200) ∧
        ∀ r ∈ s.ResourceMap, ∀ e, m.Resource r.Name = .error e →
          strings.HasPrefix e.Error "no such resource" = false := by
  rw [validateServices_eq, List.flatMap_eq_nil_iff]
  refine forall₂_congr fun s _ => ?_
  rw [serviceStep_eq]
  simp only [List.nil_append, List.append_eq_nil, List.flatMap_eq_nil_iff,
    resourceRefStep_eq_nil, ite_eq_left_iff, ite_eq_right_iff, reduceCtorEq, imp_false,
    not_lt, gt_iff_lt, Bool.not_eq_true, Bool.not_eq_false]
  tauto

theorem validateTimers_eq_nil (m : Manifest) :
    m.validateTimers = [] ↔
      ∀ t ∈ m.Timers, nameValidator.MatchString t.Name = true ∧
        (∀ e, m.Service t.Service = .error e →
          strings.HasPrefix e.Error "no such service" = false) ∧
        strings.Contains t.Schedule "?" = false := by
  rw [validateTimers_eq, List.flatMap_eq_nil_iff]
  refine forall₂_congr fun t _ => ?_
  rw [timerStep_eq]
  by_cases h1 : nameValidator.MatchString t.Name = true <;>
    by_cases h3 : strings.Contains t.Schedule "?" = true <;>
    cases m.Service t.Service with
    | ok v => simp [h1, h3]
    | error e =>
      by_cases h2 : strings.HasPrefix e.Error "no such service" = true <;> simp [h1, h2, h3]

theorem validate_eq_nil (m : Manifest) :
    m.validate = [] ↔
      m.validateEnv = [] ∧ m.validateResources = [] ∧ m.validateServices = [] ∧
        m.validateTimers = [] := by
  simp [validate_eq]

/-! ## The lookups that search the collections -/

theorem findResource_error_iff (rs : List Resource) (n : String) :
    (∃ e, findResource rs n = .error e) ↔ ∀ r ∈ rs, r.Name ≠ n := by
  unfold findResource
  cases h : rs.find? (fun r => decide (r.Name = n)) with
  | none => simpa using h
  | some r =>
    have h1 := List.find?_some h
    have h2 := List.mem_of_find?_eq_some h
    simp only [reduceCtorEq, exists_false, false_iff, not_forall]
    exact ⟨r, h2, by simpa using h1⟩

theorem findResource_error_text (rs : List Resource) (n : String) (e : GoError)
    (h : findResource rs n = .error e) :
    strings.HasPrefix e.Error "no such resource" = true := by
  unfold findResource at h
  cases hf : rs.find? (fun r => decide (r.Name = n)) with
  | none =>
    rw [hf] at h
    cases h
    rfl
  | some r =>
    rw [hf] at h
    cases h

theorem findService_error_iff (ss : List Service) (n : String) :
    (∃ e, findService ss n = .error e) ↔ ∀ s ∈ ss, s.Name ≠ n := by
  unfold findService
  cases h : ss.find? (fun s => decide (s.Name = n)) with
  | none => simpa using h
  | some s =>
    have h1 := List.find?_some h
    have h2 := List.mem_of_find?_eq_some h
    simp only [reduceCtorEq, exists_false, false_iff, not_forall]
    exact ⟨s, h2, by simpa using h1⟩

theorem findService_error_text (ss : List Service) (n : String) (e : GoError)
    (h : findService ss n = .error e) :
    strings.HasPrefix e.Error "no such service" = true := by
  unfold findService at h
  cases hf : ss.find? (fun s => decide (s.Name = n)) with
  | none =>
    rw [hf] at h
    cases h
    rfl
  | some s =>
    rw [hf] at h
    cases h

theorem findResource_append_dup (rs : List Resource) (r r₀ : Resource) (h₀ : r₀ ∈ rs)
    (hname : r₀.Name = r.Name) : findResource (rs ++ [r]) = findResource rs := by
  funext n
  unfold findResource
  rw [List.find?_append]
  cases hf : rs.find? (fun x => decide (x.Name = n)) with
  | some x => rfl
  | none =>
    have hne : r.Name ≠ n := by
      intro hn
      have := List.find?_eq_none.mp hf r₀ h₀
      simp [hname, hn] at this
    simp [hne]

theorem findService_append_dup (ss : List Service) (s s₀ : Service) (h₀ : s₀ ∈ ss)
    (hname : s₀.Name = s.Name) : findService (ss ++ [s]) = findService ss := by
  funext n
  unfold findService
  rw [List.find?_append]
  cases hf : ss.find? (fun x => decide (x.Name = n)) with
  | some x => rfl
  | none =>
    have hne : s.Name ≠ n := by
      intro hn
      have := List.find?_eq_none.mp hf s₀ h₀
      simp [hname, hn] at this
    simp [hne]

/-! ## The claims -/

/-- C1. The name check `nameValidator.MatchString` accepts exactly the non-empty
strings whose first character is a lowercase ASCII letter and whose remaining
characters are lowercase ASCII letters, ASCII digits or dashes. In particular it
rejects the empty string, a string that begins with a digit or a dash, and every
string that contains an uppercase letter, an underscore, a space or a newline
(so also one that ends in a newline). -/
theorem nameValidator_matches_grammar :
    (∀ s : String, nameValidator.MatchString s = true ↔
      ∃ c cs, s.data = c :: cs ∧ isLowerASCII c ∧
        ∀ d ∈ cs, isLowerASCII d ∨ isDigitASCII d ∨ d = '-') ∧
    nameValidator.MatchString "" = false ∧
    (∀ (s : String) (c : Char) (cs : List Char), s.data = c :: cs →
      isDigitASCII c ∨ c = '-' → nameValidator.MatchString s = false) ∧
    (∀ (s : String) (c : Char), c ∈ s.data →
      isUpperASCII c ∨ c = '_' ∨ c = ' ' ∨ c = '\n' → nameValidator.MatchString s = false) ∧
    (∀ s : String, nameValidator.MatchString (s ++ "\n") = false) := by
  have hbad : ∀ c : Char, isUpperASCII c ∨ c = '_' ∨ c = ' ' ∨ c = '\n' →
      ¬ (isLowerASCII c ∨ isDigitASCII c ∨ c = '-') := by
    intro c hc
    have h1 : '_'.toNat = 95 := by decide
    have h2 : ' '.toNat = 32 := by decide
    have h3 : '\n'.toNat = 10 := by decide
    have h4 : '-'.toNat = 45 := by decide
    have e1 : c = '_' ↔ c.toNat = 95 := by rw [← h1, toNat_eq_iff]
    have e2 : c = ' ' ↔ c.toNat = 32 := by rw [← h2, toNat_eq_iff]
    have e3 : c = '\n' ↔ c.toNat = 10 := by rw [← h3, toNat_eq_iff]
    have e4 : c = '-' ↔ c.toNat = 45 := by rw [← h4, toNat_eq_iff]
    simp only [isUpperASCII, isLowerASCII, isDigitASCII, e1, e2, e3, e4] at hc ⊢
    omega
  have hmem : ∀ (s : String) (c : Char), c ∈ s.data →
      isUpperASCII c ∨ c = '_' ∨ c = ' ' ∨ c = '\n' → nameValidator.MatchString s = false := by
    intro s c hc hbadc
    rw [Bool.eq_false_iff, Ne, MatchString_nameValidator]
    rintro ⟨c', cs, hs, hl, hrest⟩
    rw [hs, List.mem_cons] at hc
    rcases hc with rfl | hc
    · exact hbad c hbadc (Or.inl hl)
    · exact hbad c hbadc (hrest c hc)
  refine ⟨MatchString_nameValidator, by decide, ?_, hmem, ?_⟩
  · intro s c cs hs hc
    rw [Bool.eq_false_iff, Ne, MatchString_nameValidator]
    rintro ⟨c', cs', hs', hl, -⟩
    rw [hs] at hs'
    obtain ⟨rfl, -⟩ := List.cons.inj hs'
    have h4 : '-'.toNat = 45 := by decide
    have e4 : c = '-' ↔ c.toNat = 45 := by rw [← h4, toNat_eq_iff]
    simp only [isLowerASCII, isDigitASCII, e4] at hc hl
    omega
  · intro s
    refine hmem (s ++ "\n") '\n' ?_ (Or.inr (Or.inr (Or.inr rfl)))
    have : (s ++ "\n").data = s.data ++ ['\n'] := rfl
    rw [this]
    simp

/-- C2. Soundness of an empty result: when every resource, service and timer name
matches the naming grammar, every resource type is not empty after trimming white
space, every service has 0 ≤ Minimum ≤ 100 and 100 ≤ Maximum ≤ 200, every resource
named in a resource-map is found by `Resource`, every timer's service is found by
`Service`, no schedule contains `?`, and `ServiceEnvironment` succeeds for every
service, then `validate` returns the empty list. -/
theorem validate_nil_of_invariants (m : Manifest)
    (hnameR : ∀ r ∈ m.Resources, NameGrammar r.Name)
    (hnameS : ∀ s ∈ m.Services, NameGrammar s.Name)
    (hnameT : ∀ t ∈ m.Timers, NameGrammar t.Name)
    (htype : ∀ r ∈ m.Resources, strings.TrimSpace r.«Type» ≠ "")
    (hbounds : ∀ s ∈ m.Services,
      (0 ≤ s.Deployment.Minimum ∧ s.Deployment.Minimum ≤ 100) ∧
        (100 ≤ s.Deployment.Maximum ∧ s.Deployment.Maximum ≤ 200))
    (href : ∀ s ∈ m.Services, ∀ r ∈ s.ResourceMap, ∃ v, m.Resource r.Name = .ok v)
    (hsvc : ∀ t ∈ m.Timers, ∃ v, m.Service t.Service = .ok v)
    (hsched : ∀ t ∈ m.Timers, '?' ∉ t.Schedule.data)
    (henv : ∀ s ∈ m.Services, ∃ v, m.ServiceEnvironment s.Name = .ok v) :
    m.validate = [] := by
  rw [validate_eq_nil, validateEnv_eq_nil, validateResources_eq_nil, validateServices_eq_nil,
    validateTimers_eq_nil]
  refine ⟨henv, ?_, ?_, ?_⟩
  · intro r hr
    exact ⟨(MatchString_nameValidator _).mpr (hnameR r hr), htype r hr⟩
  · intro s hs
    refine ⟨(MatchString_nameValidator _).mpr (hnameS s hs), (hbounds s hs).1,
      (hbounds s hs).2, ?_⟩
    intro r hr e he
    obtain ⟨v, hv⟩ := href s hs r hr
    rw [hv] at he
    cases he
  · intro t ht
    refine ⟨(MatchString_nameValidator _).mpr (hnameT t ht), ?_, ?_⟩
    · intro e he
      obtain ⟨v, hv⟩ := hsvc t ht
      rw [hv] at he
      cases he
    · rw [Bool.eq_false_iff, Ne, Contains_question]
      exact hsched t ht

/-- C2, at the end-to-end example: resource `db-1` of type `postgres`, service `api`
with deployment 50..150 and resource-map `db -> db-1`, no timer, the environment of
`api` resolving. -/
theorem validate_nil_of_invariants_witness : exampleManifest.validate = [] :=
  validate_nil_of_invariants exampleManifest
    (by
      intro r hr
      simp only [exampleManifest, Manifest.ofLists, List.mem_singleton] at hr
      subst hr
      exact (MatchString_nameValidator _).mp (by decide))
    (by
      intro s hs
      simp only [exampleManifest, Manifest.ofLists, List.mem_singleton] at hs
      subst hs
      exact (MatchString_nameValidator _).mp (by decide))
    (by
      intro t ht
      simp [exampleManifest, Manifest.ofLists] at ht)
    (by decide) (by decide)
    (by
      intro s hs r hr
      simp only [exampleManifest, Manifest.ofLists, List.mem_singleton] at hs
      subst hs
      simp only [List.mem_singleton] at hr
      subst hr
      exact ⟨⟨"db-1", "postgres"⟩, rfl⟩)
    (by
      intro t ht
      simp [exampleManifest, Manifest.ofLists] at ht)
    (by decide)
    (by
      intro s _
      exact ⟨[], rfl⟩)

/-- C3. Completeness of an empty result: for a manifest whose lookups `Resource`
and `Service` fail exactly when no entity has the name, and then with the "not
found" error, an empty result of `validate` implies the seven invariants: all names
match the naming grammar, no resource type is blank, every service has Minimum in
[0,100] and Maximum in [100,200], every resource of a resource-map exists, every
timer's service exists, no schedule contains `?`, and `ServiceEnvironment` succeeds
for every service. -/
theorem invariants_of_validate_nil (m : Manifest)
    (hR : ∀ n, (∃ e, m.Resource n = .error e) ↔ ∀ r ∈ m.Resources, r.Name ≠ n)
    (hRtext : ∀ n e, m.Resource n = .error e →
      strings.HasPrefix e.Error "no such resource" = true)
    (hS : ∀ n, (∃ e, m.Service n = .error e) ↔ ∀ s ∈ m.Services, s.Name ≠ n)
    (hStext : ∀ n e, m.Service n = .error e →
      strings.HasPrefix e.Error "no such service" = true)
    (h : m.validate = []) :
    ((∀ r ∈ m.Resources, NameGrammar r.Name) ∧ (∀ s ∈ m.Services, NameGrammar s.Name) ∧
      (∀ t ∈ m.Timers, NameGrammar t.Name)) ∧
    (∀ r ∈ m.Resources, ∃ c ∈ r.«Type».data, unicode.IsSpace c = false) ∧
    (∀ s ∈ m.Services,
      (0 ≤ s.Deployment.Minimum ∧ s.Deployment.Minimum ≤ 100) ∧
        (100 ≤ s.Deployment.Maximum ∧ s.Deployment.Maximum ≤ 200)) ∧
    (∀ s ∈ m.Services, ∀ r ∈ s.ResourceMap, ∃ r' ∈ m.Resources, r'.Name = r.Name) ∧
    (∀ t ∈ m.Timers, ∃ s ∈ m.Services, s.Name = t.Service) ∧
    (∀ t ∈ m.Timers, '?' ∉ t.Schedule.data) ∧
    (∀ s ∈ m.Services, ∃ v, m.ServiceEnvironment s.Name = .ok v) := by
  rw [validate_eq_nil, validateEnv_eq_nil, validateResources_eq_nil, validateServices_eq_nil,
    validateTimers_eq_nil] at h
  obtain ⟨henv, hres, hsvc, htim⟩ := h
  refine ⟨⟨?_, ?_, ?_⟩, ?_, ?_, ?_, ?_, ?_, henv⟩
  · exact fun r hr => (MatchString_nameValidator _).mp (hres r hr).1
  · exact fun s hs => (MatchString_nameValidator _).mp (hsvc s hs).1
  · exact fun t ht => (MatchString_nameValidator _).mp (htim t ht).1
  · intro r hr
    have h2 := (hres r hr).2
    rw [Ne, TrimSpace_eq_empty] at h2
    simpa using h2
  · exact fun s hs => ⟨(hsvc s hs).2.1, (hsvc s hs).2.2.1⟩
  · intro s hs r hr
    by_contra hno
    have habs : ∀ r' ∈ m.Resources, r'.Name ≠ r.Name := by
      intro r' hr' heq
      exact hno ⟨r', hr', heq⟩
    obtain ⟨e, he⟩ := (hR r.Name).mpr habs
    have h1 := (hsvc s hs).2.2.2 r hr e he
    rw [hRtext r.Name e he] at h1
    cases h1
  · intro t ht
    by_contra hno
    have habs : ∀ s ∈ m.Services, s.Name ≠ t.Service := by
      intro s hs heq
      exact hno ⟨s, hs, heq⟩
    obtain ⟨e, he⟩ := (hS t.Service).mpr habs
    have h1 := (htim t ht).2.1 e he
    rw [hStext t.Service e he] at h1
    cases h1
  · intro t ht
    rw [← Contains_question]
    simp [(htim t ht).2.2]

/-- C3, at the end-to-end example, whose lookups search the collections. -/
theorem invariants_of_validate_nil_witness :
    (∀ r ∈ exampleManifest.Resources, NameGrammar r.Name) ∧
    (∀ s ∈ exampleManifest.Services, ∀ r ∈ s.ResourceMap,
      ∃ r' ∈ exampleManifest.Resources, r'.Name = r.Name) :=
  have h := invariants_of_validate_nil exampleManifest
    (findResource_error_iff _) (findResource_error_text _)
    (findService_error_iff _) (findService_error_text _) (by decide)
  ⟨h.1.1, h.2.2.2.1⟩

/-- C4. The aggregator `validate` returns the results of the four rule groups
concatenated in the order environment, resources, services, timers; its length is
the sum of the four lengths, and every violation occurs in it as often as in the
four groups together, so no group removes a violation of another. -/
theorem validate_concatenates_groups (m : Manifest) :
    m.validate =
      m.validateEnv ++ m.validateResources ++ m.validateServices ++ m.validateTimers ∧
    m.validate.length =
      m.validateEnv.length + m.validateResources.length + m.validateServices.length +
        m.validateTimers.length ∧
    ∀ v : Violation, m.validate.count v =
      m.validateEnv.count v + m.validateResources.count v + m.validateServices.count v +
        m.validateTimers.count v := by
  refine ⟨by simp [validate_eq], by simp [validate_eq]; omega, ?_⟩
  intro v
  simp [validate_eq]
  omega

/-- C5. The deployment errors that one pass of the loop of `validateServices` appends
for a service are, in this order, `DeploymentMinTooLow` when Minimum < 0,
`DeploymentMinTooHigh` when Minimum > 100, `DeploymentMaxTooLow` when Maximum < 100
and `DeploymentMaxTooHigh` when Maximum > 200, one for each condition that holds, so
their number is the number of conditions that hold, and over the manifest the
deployment errors number the violated bounds of all services. A service with a valid
name and an empty resource-map yields exactly the error for Minimum < 0 with
deployment {-1, 100}, and that error followed by the one for Maximum > 200 with
{-1, 201}. -/
theorem deployment_errors_per_bound (m : Manifest) (s : Service) :
    (∀ errs, m.serviceStep errs s = errs ++ m.serviceStep [] s) ∧
    (m.serviceStep [] s).filter Violation.isDeployment =
      (if s.Deployment.Minimum < 0 then [Violation.DeploymentMinTooLow s.Name] else []) ++
      (if s.Deployment.Minimum > 100 then [Violation.DeploymentMinTooHigh s.Name] else []) ++
      (if s.Deployment.Maximum < 100 then [Violation.DeploymentMaxTooLow s.Name] else []) ++
      (if s.Deployment.Maximum > 200 then [Violation.DeploymentMaxTooHigh s.Name] else []) ∧
    (m.serviceStep [] s).countP Violation.isDeployment = s.Deployment.violatedBounds ∧
    m.validateServices.countP Violation.isDeployment =
      (m.Services.map (fun s' => s'.Deployment.violatedBounds)).sum ∧
    (nameValidator.MatchString s.Name = true → s.ResourceMap = [] →
      s.Deployment = ⟨-1, 100⟩ →
        m.serviceStep [] s = [Violation.DeploymentMinTooLow s.Name]) ∧
    (nameValidator.MatchString s.Name = true → s.ResourceMap = [] →
      s.Deployment = ⟨-1, 201⟩ →
        m.serviceStep [] s =
          [Violation.DeploymentMinTooLow s.Name, Violation.DeploymentMaxTooHigh s.Name]) := by
  have hfilter : ∀ s' : Service, (m.serviceStep [] s').filter Violation.isDeployment =
      (if s'.Deployment.Minimum < 0 then [Violation.DeploymentMinTooLow s'.Name] else []) ++
      (if s'.Deployment.Minimum > 100 then [Violation.DeploymentMinTooHigh s'.Name] else []) ++
      (if s'.Deployment.Maximum < 100 then [Violation.DeploymentMaxTooLow s'.Name] else []) ++
      (if s'.Deployment.Maximum > 200 then [Violation.DeploymentMaxTooHigh s'.Name]
        else []) := by
    intro s'
    rw [serviceStep_eq]
    simp only [List.nil_append, List.filter_append, filter_refs_isDeployment, List.append_nil]
    by_cases h1 : nameValidator.MatchString s'.Name = true <;>
      by_cases h2 : s'.Deployment.Minimum < 0 <;>
      by_cases h3 : s'.Deployment.Minimum > 100 <;>
      by_cases h4 : s'.Deployment.Maximum < 100 <;>
      by_cases h5 : s'.Deployment.Maximum > 200 <;>
      simp [h1, h2, h3, h4, h5, Violation.isDeployment, Violation.kind]
  have hcount : ∀ s' : Service,
      (m.serviceStep [] s').countP Violation.isDeployment = s'.Deployment.violatedBounds := by
    intro s'
    rw [List.countP_eq_length_filter, hfilter s']
    unfold ServiceDeployment.violatedBounds
    by_cases h2 : s'.Deployment.Minimum < 0 <;>
      by_cases h3 : s'.Deployment.Minimum > 100 <;>
      by_cases h4 : s'.Deployment.Maximum < 100 <;>
      by_cases h5 : s'.Deployment.Maximum > 200 <;> simp [h2, h3, h4, h5]
  refine ⟨fun errs => serviceStep_append m errs s, hfilter s, hcount s, ?_, ?_, ?_⟩
  · rw [validateServices_eq, countP_flatMap_eq]
    congr 1
    exact List.map_congr_left (fun s' _ => hcount s')
  · intro hname hmap hdep
    rw [serviceStep_eq, hname, hmap, hdep]
    simp
  · intro hname hmap hdep
    rw [serviceStep_eq, hname, hmap, hdep]
    simp

/-- C5, at the service `api` with an empty resource-map and the deployments
{-1, 100} and {-1, 201}, in the example manifest. -/
theorem deployment_errors_per_bound_witness :
    exampleManifest.serviceStep [] ⟨"api", ⟨-1, 100⟩, []⟩ =
      [Violation.DeploymentMinTooLow "api"] ∧
    exampleManifest.serviceStep [] ⟨"api", ⟨-1, 201⟩, []⟩ =
      [Violation.DeploymentMinTooLow "api", Violation.DeploymentMaxTooHigh "api"] :=
  ⟨(deployment_errors_per_bound exampleManifest ⟨"api", ⟨-1, 100⟩, []⟩).2.2.2.2.1
      (by decide) rfl rfl,
    (deployment_errors_per_bound exampleManifest ⟨"api", ⟨-1, 201⟩, []⟩).2.2.2.2.2
      (by decide) rfl rfl⟩

/-- C6, as stated, fails: in a manifest without resources whose service `api`
references the absent resource `ghost` under two aliases, `validateServices` returns
two `DanglingResourceReference` errors naming `api` and `ghost`, not exactly one. -/
theorem dangling_resource_reported_twice :
    (⟨"api", ⟨50, 150⟩, [⟨"db", "ghost"⟩, ⟨"cache", "ghost"⟩]⟩ : Service) ∈
      twoReferencesManifest.Services ∧
    (∀ r ∈ twoReferencesManifest.Resources, r.Name ≠ "ghost") ∧
    twoReferencesManifest.Resource "ghost" = .error ⟨"no such resource: ghost"⟩ ∧
    strings.HasPrefix "no such resource: ghost" "no such resource" = true ∧
    twoReferencesManifest.validateServices =
      [Violation.DanglingResourceReference "api" "ghost",
        Violation.DanglingResourceReference "api" "ghost"] ∧
    twoReferencesManifest.validateServices.count
      (Violation.DanglingResourceReference "api" "ghost") = 2 := by
  refine ⟨by decide, by decide, rfl, by decide, by decide, by decide⟩

/-- C6, amended. When `Resource` fails for the name `n` with the "not found" error,
one pass of the loop of `validateServices` appends for a service `s` one
`DanglingResourceReference` error naming `s` and `n` for each entry of the
resource-map of `s` that references `n`: exactly one when one entry does, and at
least one, found in the result of `validateServices`, when `s` is a service of the
manifest and some entry does. Over the manifest the errors naming `s` and `n` number
the entries referencing `n` in the resource-maps of the services named like `s`. The
text of the error is "service <s.Name> references a resource that does not exist:
<n>". -/
theorem dangling_resource_per_reference (m : Manifest) (s : Service) (n : String)
    (e : GoError) (he : m.Resource n = .error e)
    (htext : strings.HasPrefix e.Error "no such resource" = true) :
    (m.serviceStep [] s).count (.DanglingResourceReference s.Name n) =
      s.ResourceMap.countP (fun r => decide (r.Name = n)) ∧
    (s.ResourceMap.countP (fun r => decide (r.Name = n)) = 1 →
      (m.serviceStep [] s).count (.DanglingResourceReference s.Name n) = 1) ∧
    (s ∈ m.Services → (∃ r ∈ s.ResourceMap, r.Name = n) →
      Violation.DanglingResourceReference s.Name n ∈ m.validateServices) ∧
    m.validateServices.count (.DanglingResourceReference s.Name n) =
      (m.Services.map (fun s' =>
        if s'.Name = s.Name then s'.ResourceMap.countP (fun r => decide (r.Name = n))
        else 0)).sum ∧
    (∀ quote, (Violation.DanglingResourceReference s.Name n).Error quote =
      "service " ++ s.Name ++ " references a resource that does not exist: " ++ n) := by
  have hstep : (m.serviceStep [] s).count (.DanglingResourceReference s.Name n) =
      s.ResourceMap.countP (fun r => decide (r.Name = n)) := by
    rw [count_serviceStep m s s.Name n e he htext]
    simp
  refine ⟨hstep, fun h1 => by rw [hstep, h1], ?_, ?_, fun _ => rfl⟩
  · rintro hs ⟨r, hr, hrn⟩
    rw [validateServices_eq, List.mem_flatMap]
    refine ⟨s, hs, ?_⟩
    rw [← List.count_pos_iff, hstep, List.countP_pos_iff]
    exact ⟨r, hr, by simpa using hrn⟩
  · rw [validateServices_eq, count_flatMap_eq]
    congr 1
    exact List.map_congr_left (fun s' _ => count_serviceStep m s' s.Name n e he htext)

/-- C6, amended, at the manifest without resources whose service `api` references
`ghost` under two aliases: two references, two errors. -/
theorem dangling_resource_per_reference_witness :
    (twoReferencesManifest.serviceStep []
      ⟨"api", ⟨50, 150⟩, [⟨"db", "ghost"⟩, ⟨"cache", "ghost"⟩]⟩).count
        (.DanglingResourceReference "api" "ghost") = 2 :=
  (dangling_resource_per_reference twoReferencesManifest
    ⟨"api", ⟨50, 150⟩, [⟨"db", "ghost"⟩, ⟨"cache", "ghost"⟩]⟩ "ghost"
    ⟨"no such resource: ghost"⟩ rfl (by decide)).1

/-- C7. One pass of the loop of `validateTimers` appends for a timer the error
`DanglingServiceReference` naming the timer and its service exactly when `Service`
fails for the timer's service with the "not found" error, and then exactly once;
this holds also for an empty service name. For a timer of the manifest the error is
in the result of `validateTimers` exactly in that case, and over the manifest these
errors number the timers whose lookup fails so. The text is "timer <t.Name>
references a service that does not exist: <t.Service>". -/
theorem dangling_service_iff_not_found (m : Manifest) (t : Timer) :
    (∀ errs, m.timerStep errs t = errs ++ m.timerStep [] t) ∧
    (m.serviceNotFound t.Service = true ↔
      ∃ e, m.Service t.Service = .error e ∧
        strings.HasPrefix e.Error "no such service" = true) ∧
    (m.timerStep [] t).filter (fun v => decide (v.kind = Kind.DanglingServiceReference)) =
      (if m.serviceNotFound t.Service = true then
        [Violation.DanglingServiceReference t.Name t.Service] else []) ∧
    (Violation.DanglingServiceReference t.Name t.Service ∈ m.timerStep [] t ↔
      m.serviceNotFound t.Service = true) ∧
    (t.Service = "" → m.serviceNotFound "" = true →
      (m.timerStep [] t).count (Violation.DanglingServiceReference t.Name "") = 1) ∧
    (t ∈ m.Timers →
      (Violation.DanglingServiceReference t.Name t.Service ∈ m.validateTimers ↔
        m.serviceNotFound t.Service = true)) ∧
    m.validateTimers.countP (fun v => decide (v.kind = Kind.DanglingServiceReference)) =
      m.Timers.countP (fun t' => m.serviceNotFound t'.Service) ∧
    (∀ quote, (Violation.DanglingServiceReference t.Name t.Service).Error quote =
      "timer " ++ t.Name ++ " references a service that does not exist: " ++ t.Service) := by
  have hfilter : ∀ t' : Timer,
      (m.timerStep [] t').filter (fun v => decide (v.kind = Kind.DanglingServiceReference)) =
        (if m.serviceNotFound t'.Service = true then
          [Violation.DanglingServiceReference t'.Name t'.Service] else []) := by
    intro t'
    rw [timerStep_nil]
    by_cases h1 : nameValidator.MatchString t'.Name = true <;>
      by_cases h2 : m.serviceNotFound t'.Service = true <;>
      by_cases h3 : strings.Contains t'.Schedule "?" = true <;>
      simp [h1, h2, h3, Violation.kind]
  refine ⟨fun errs => timerStep_append m errs t, ?_, hfilter t, ?_, ?_, ?_, ?_, fun _ => rfl⟩
  · unfold Manifest.serviceNotFound
    cases m.Service t.Service <;> simp
  · rw [mem_timerStep_dangling]
    simp
  · intro hempty hnf
    rw [timerStep_nil, hempty, hnf]
    by_cases h1 : nameValidator.MatchString t.Name = true <;>
      by_cases h3 : strings.Contains t.Schedule "?" = true <;>
      simp [h1, h3, List.count_cons]
  · intro ht
    rw [validateTimers_eq, List.mem_flatMap]
    constructor
    · rintro ⟨t', -, hmem⟩
      obtain ⟨-, hsvc, hnf⟩ := (mem_timerStep_dangling m t' _ _).mp hmem
      rw [← hsvc]
      exact hnf
    · intro hnf
      exact ⟨t, ht, (mem_timerStep_dangling m t _ _).mpr ⟨rfl, rfl, hnf⟩⟩
  · rw [validateTimers_eq, countP_flatMap_eq]
    induction m.Timers with
    | nil => rfl
    | cons t' ts ih =>
      rw [List.map_cons, List.sum_cons, ih, List.countP_cons, List.countP_eq_length_filter,
        hfilter t']
      by_cases h2 : m.serviceNotFound t'.Service = true <;> simp [h2, Nat.add_comm]

/-- C7, at a timer with an empty service name in the example manifest, which has no
service of that name. -/
theorem dangling_service_iff_not_found_witness :
    (exampleManifest.timerStep [] ⟨"nightly", "", "0 3 * * *"⟩).count
      (Violation.DanglingServiceReference "nightly" "") = 1 :=
  (dangling_service_iff_not_found exampleManifest ⟨"nightly", "", "0 3 * * *"⟩).2.2.2.2.1
    rfl (by decide)

/-- C8. One pass of the loop of `validateResources` appends for a resource, after
the `InvalidName` error of an invalid name, exactly one `BlankType` error when the
type is empty or consists of white space only, and none when the type contains a
character that is not white space, whether the name is valid or not. Over the
manifest the `BlankType` errors number the resources with such a type. -/
theorem blank_type_once (m : Manifest) (r : Resource) :
    (∀ errs, m.resourceStep errs r = errs ++ m.resourceStep [] r) ∧
    m.resourceStep [] r =
      (if nameValidator.MatchString r.Name = true then []
        else [Violation.InvalidName .resource r.Name]) ++
      (if r.«Type».data.all unicode.IsSpace = true then [Violation.BlankType r.Name]
        else []) ∧
    ((∀ c ∈ r.«Type».data, unicode.IsSpace c = true) →
      (m.resourceStep [] r).filter (fun v => decide (v.kind = Kind.BlankType)) =
        [Violation.BlankType r.Name]) ∧
    ((∃ c ∈ r.«Type».data, unicode.IsSpace c = false) →
      (m.resourceStep [] r).filter (fun v => decide (v.kind = Kind.BlankType)) = []) ∧
    (r.«Type» = "" →
      (m.resourceStep [] r).filter (fun v => decide (v.kind = Kind.BlankType)) =
        [Violation.BlankType r.Name]) ∧
    (m.resourceStep [] r).countP (fun v => decide (v.kind = Kind.InvalidName)) =
      (if nameValidator.MatchString r.Name = true then 0 else 1) ∧
    m.validateResources.countP (fun v => decide (v.kind = Kind.BlankType)) =
      m.Resources.countP (fun r' => r'.«Type».data.all unicode.IsSpace) := by
  have hblank : ∀ r' : Resource,
      strings.TrimSpace r'.«Type» = "" ↔ r'.«Type».data.all unicode.IsSpace = true := by
    intro r'
    rw [TrimSpace_eq_empty, List.all_eq_true]
  have hstep : ∀ r' : Resource, m.resourceStep [] r' =
      (if nameValidator.MatchString r'.Name = true then []
        else [Violation.InvalidName .resource r'.Name]) ++
      (if r'.«Type».data.all unicode.IsSpace = true then [Violation.BlankType r'.Name]
        else []) := by
    intro r'
    rw [resourceStep_eq, List.nil_append]
    by_cases h : strings.TrimSpace r'.«Type» = ""
    · rw [if_pos h, if_pos ((hblank r').mp h)]
    · rw [if_neg h, if_neg (fun h' => h ((hblank r').mpr h'))]
  have hfilter : ∀ r' : Resource,
      (m.resourceStep [] r').filter (fun v => decide (v.kind = Kind.BlankType)) =
        (if r'.«Type».data.all unicode.IsSpace = true then [Violation.BlankType r'.Name]
          else []) := by
    intro r'
    rw [hstep r']
    by_cases h1 : nameValidator.MatchString r'.Name = true <;>
      by_cases h2 : r'.«Type».data.all unicode.IsSpace = true <;>
      simp [h1, h2, Violation.kind]
  refine ⟨?_, hstep r, ?_, ?_, ?_, ?_, ?_⟩
  · intro errs
    rw [resourceStep_eq m errs r, resourceStep_eq m [] r]
    simp
  · intro hall
    rw [hfilter r, if_pos (List.all_eq_true.mpr hall)]
  · rintro ⟨c, hc, hns⟩
    rw [hfilter r, if_neg]
    intro hall
    rw [List.all_eq_true.mp hall c hc] at hns
    cases hns
  · intro hempty
    rw [hfilter r, hempty]
    rfl
  · rw [hstep r]
    by_cases h1 : nameValidator.MatchString r.Name = true <;>
      by_cases h2 : r.«Type».data.all unicode.IsSpace = true <;>
      simp [h1, h2, Violation.kind]
  · rw [validateResources_eq, countP_flatMap_eq]
    induction m.Resources with
    | nil => rfl
    | cons r' rs ih =>
      rw [List.map_cons, List.sum_cons, ih, List.countP_cons, List.countP_eq_length_filter,
        hfilter r']
      by_cases h2 : r'.«Type».data.all unicode.IsSpace = true <;> simp [h2, Nat.add_comm]

/-- C8, at a resource with the invalid name `DB` and a type of a space and a tab, and
at one with the type `postgres`. -/
theorem blank_type_once_witness :
    exampleManifest.resourceStep [] ⟨"DB", " \t"⟩ =
      [Violation.InvalidName .resource "DB", Violation.BlankType "DB"] ∧
    (exampleManifest.resourceStep [] ⟨"db", "postgres"⟩).filter
      (fun v => decide (v.kind = Kind.BlankType)) = [] :=
  ⟨(blank_type_once exampleManifest ⟨"DB", " \t"⟩).2.1,
    (blank_type_once exampleManifest ⟨"db", "postgres"⟩).2.2.2.1 ⟨'p', by decide, by decide⟩⟩

/-- C9. One pass of the loop of `validateTimers` appends for a timer exactly one
`InvalidSchedule` error when the schedule contains the character `?`, however often,
and none when it does not. A timer with a valid name and a service that is found
yields exactly that error for the schedule "0 * * * ?" and nothing for "0 * * * *".
Over the manifest the `InvalidSchedule` errors number the timers whose schedule
contains `?`. -/
theorem invalid_schedule_once (m : Manifest) (t : Timer) :
    (∀ errs, m.timerStep errs t = errs ++ m.timerStep [] t) ∧
    ('?' ∈ t.Schedule.data →
      (m.timerStep [] t).filter (fun v => decide (v.kind = Kind.InvalidSchedule)) =
        [Violation.InvalidSchedule t.Name]) ∧
    ('?' ∉ t.Schedule.data →
      (m.timerStep [] t).filter (fun v => decide (v.kind = Kind.InvalidSchedule)) = []) ∧
    (nameValidator.MatchString t.Name = true → (∃ v, m.Service t.Service = .ok v) →
      t.Schedule = "0 * * * ?" → m.timerStep [] t = [Violation.InvalidSchedule t.Name]) ∧
    (nameValidator.MatchString t.Name = true → (∃ v, m.Service t.Service = .ok v) →
      t.Schedule = "0 * * * *" → m.timerStep [] t = []) ∧
    m.validateTimers.countP (fun v => decide (v.kind = Kind.InvalidSchedule)) =
      m.Timers.countP (fun t' => decide ('?' ∈ t'.Schedule.data)) := by
  have hfilter : ∀ t' : Timer,
      (m.timerStep [] t').filter (fun v => decide (v.kind = Kind.InvalidSchedule)) =
        (if '?' ∈ t'.Schedule.data then [Violation.InvalidSchedule t'.Name] else []) := by
    intro t'
    rw [timerStep_nil]
    by_cases h1 : nameValidator.MatchString t'.Name = true <;>
      by_cases h2 : m.serviceNotFound t'.Service = true <;>
      by_cases h3 : '?' ∈ t'.Schedule.data <;>
      simp [h1, h2, h3, Contains_question, Violation.kind]
  have hfound : (∃ v, m.Service t.Service = .ok v) → m.serviceNotFound t.Service = false := by
    rintro ⟨v, hv⟩
    unfold Manifest.serviceNotFound
    rw [hv]
  refine ⟨fun errs => timerStep_append m errs t, ?_, ?_, ?_, ?_, ?_⟩
  · intro h
    rw [hfilter t, if_pos h]
  · intro h
    rw [hfilter t, if_neg h]
  · intro hname hsvc hsched
    have hq : strings.Contains t.Schedule "?" = true := by
      rw [hsched]
      decide
    rw [timerStep_nil, hname, hfound hsvc, hq]
    simp
  · intro hname hsvc hsched
    have hq : strings.Contains t.Schedule "?" = false := by
      rw [hsched]
      decide
    rw [timerStep_nil, hname, hfound hsvc, hq]
    simp
  · rw [validateTimers_eq, countP_flatMap_eq]
    induction m.Timers with
    | nil => rfl
    | cons t' ts ih =>
      rw [List.map_cons, List.sum_cons, ih, List.countP_cons, List.countP_eq_length_filter,
        hfilter t']
      by_cases h2 : '?' ∈ t'.Schedule.data <;> simp [h2, Nat.add_comm]

/-- C9, at the timer `nightly` of the service `api` in the example manifest, with the
schedules "0 * * * ?" and "0 * * * *". -/
theorem invalid_schedule_once_witness :
    exampleManifest.timerStep [] ⟨"nightly", "api", "0 * * * ?"⟩ =
      [Violation.InvalidSchedule "nightly"] ∧
    exampleManifest.timerStep [] ⟨"nightly", "api", "0 * * * *"⟩ = [] :=
  ⟨(invalid_schedule_once exampleManifest ⟨"nightly", "api", "0 * * * ?"⟩).2.2.2.1
      (by decide) ⟨⟨"api", ⟨50, 150⟩, [⟨"db", "db-1"⟩]⟩, rfl⟩ rfl,
    (invalid_schedule_once exampleManifest ⟨"nightly", "api", "0 * * * *"⟩).2.2.2.2.1
      (by decide) ⟨⟨"api", ⟨50, 150⟩, [⟨"db", "db-1"⟩]⟩, rfl⟩ rfl⟩

/-- C10. Only "not found" lookups are reported. When `Resource` fails for a referenced
resource with an error whose text does not begin with "no such resource", the inner
loop of `validateServices` appends nothing for that reference; when `Service` fails
for a timer's service with an error whose text does not begin with "no such service",
`validateTimers` appends no `DanglingServiceReference` error for that timer, only
the errors of its name and schedule. If every failing lookup is of that kind, the
results contain no dangling-reference error at all, and in no case does an error
returned by a lookup appear in the result of `validateServices` or
`validateTimers`. -/
theorem only_not_found_reported (m : Manifest) :
    (∀ (s : Service) (r : ServiceResource) (errs : List Violation) (e : GoError),
      m.Resource r.Name = .error e →
      strings.HasPrefix e.Error "no such resource" = false →
        m.resourceRefStep s errs r = errs) ∧
    (∀ (t : Timer) (e : GoError), m.Service t.Service = .error e →
      strings.HasPrefix e.Error "no such service" = false →
        m.timerStep [] t =
          (if nameValidator.MatchString t.Name = true then []
            else [Violation.InvalidName .timer t.Name]) ++
          (if strings.Contains t.Schedule "?" = true then [Violation.InvalidSchedule t.Name]
            else [])) ∧
    ((∀ s ∈ m.Services, ∀ r ∈ s.ResourceMap, ∀ e, m.Resource r.Name = .error e →
        strings.HasPrefix e.Error "no such resource" = false) →
      ∀ v ∈ m.validateServices, v.kind ≠ Kind.DanglingResourceReference) ∧
    ((∀ t ∈ m.Timers, ∀ e, m.Service t.Service = .error e →
        strings.HasPrefix e.Error "no such service" = false) →
      ∀ v ∈ m.validateTimers, v.kind ≠ Kind.DanglingServiceReference) ∧
    (∀ err : GoError, Violation.EnvironmentResolutionError err ∉ m.validateServices ∧
      Violation.EnvironmentResolutionError err ∉ m.validateTimers) := by
  have hnf : ∀ (t : Timer) (e : GoError), m.Service t.Service = .error e →
      strings.HasPrefix e.Error "no such service" = false →
        m.serviceNotFound t.Service = false := by
    intro t e he htext
    unfold Manifest.serviceNotFound
    rw [he]
    exact htext
  refine ⟨?_, ?_, ?_, ?_, ?_⟩
  · intro s r errs e he htext
    unfold Manifest.resourceRefStep
    rw [he]
    simp [htext]
  · intro t e he htext
    rw [timerStep_nil, hnf t e he htext]
    simp
  · intro hall v hv hkind
    rw [validateServices_eq, List.mem_flatMap] at hv
    obtain ⟨s, hs, hv⟩ := hv
    rw [serviceStep_eq, List.nil_append] at hv
    simp only [List.mem_append, List.mem_flatMap] at hv
    rcases hv with ((((h | h) | h) | h) | h) | ⟨r, hr, h⟩
    · split at h <;> simp at h
      subst h
      cases hkind
    · split at h <;> simp at h
      subst h
      cases hkind
    · split at h <;> simp at h
      subst h
      cases hkind
    · split at h <;> simp at h
      subst h
      cases hkind
    · split at h <;> simp at h
      subst h
      cases hkind
    · have hnil := (resourceRefStep_eq_nil m s r).mpr (hall s hs r hr)
      rw [hnil] at h
      cases h
  · intro hall v hv hkind
    rw [validateTimers_eq, List.mem_flatMap] at hv
    obtain ⟨t, ht, hv⟩ := hv
    have hnf' : m.serviceNotFound t.Service = false := by
      cases hsvc : m.Service t.Service with
      | ok w =>
        unfold Manifest.serviceNotFound
        rw [hsvc]
      | error e => exact hnf t e hsvc (hall t ht e hsvc)
    rw [timerStep_nil, hnf'] at hv
    simp only [List.mem_append] at hv
    rcases hv with (h | h) | h
    · split at h <;> simp at h
      subst h
      cases hkind
    · simp at h
    · split at h <;> simp at h
      subst h
      cases hkind
  · intro err
    constructor
    · intro hv
      rw [validateServices_eq, List.mem_flatMap] at hv
      obtain ⟨s, -, hv⟩ := hv
      rw [serviceStep_eq, List.nil_append] at hv
      simp only [List.mem_append, List.mem_flatMap] at hv
      rcases hv with ((((h | h) | h) | h) | h) | ⟨r, -, h⟩
      · split at h <;> simp at h
      · split at h <;> simp at h
      · split at h <;> simp at h
      · split at h <;> simp at h
      · split at h <;> simp at h
      · have := resourceRefStep_kind m s r _ h
        cases this
    · intro hv
      rw [validateTimers_eq, List.mem_flatMap] at hv
      obtain ⟨t, -, hv⟩ := hv
      rw [timerStep_nil] at hv
      simp only [List.mem_append] at hv
      rcases hv with (h | h) | h
      · split at h <;> simp at h
      · split at h <;> simp at h
      · split at h <;> simp at h

/-- C10, at a manifest whose lookups fail with errors that are not "not found": the
reference of the service `api` to `db` and that of the timer `nightly` to `api` are
not reported. -/
theorem only_not_found_reported_witness :
    failingLookupsManifest.resourceRefStep ⟨"api", ⟨50, 150⟩, [⟨"db", "db"⟩]⟩ []
      ⟨"db", "db"⟩ = [] ∧
    failingLookupsManifest.timerStep [] ⟨"nightly", "api", "0 3 * * *"⟩ = [] ∧
    (∀ v ∈ failingLookupsManifest.validateServices, v.kind ≠ Kind.DanglingResourceReference) ∧
    (∀ v ∈ failingLookupsManifest.validateTimers, v.kind ≠ Kind.DanglingServiceReference) :=
  have h := only_not_found_reported failingLookupsManifest
  ⟨h.1 _ ⟨"db", "db"⟩ [] ⟨"resource lookup failed"⟩ rfl (by decide),
    h.2.1 ⟨"nightly", "api", "0 3 * * *"⟩ ⟨"service lookup failed"⟩ rfl (by decide),
    h.2.2.1 (by
      intro s _ r _ e he
      cases he
      decide),
    h.2.2.2.1 (by
      intro t _ e he
      cases he
      decide)⟩

/-- C11. The result of `validateEnv` is the list, in the order of the services, of
the errors that `ServiceEnvironment` returns for the names of the services for which
it fails: one pass of the loop appends the returned error itself, whose text is the
text of that error, and appends nothing for a service whose environment resolves. -/
theorem validateEnv_collects_errors (m : Manifest) :
    m.validateEnv =
      m.Services.filterMap (fun s =>
        match m.ServiceEnvironment s.Name with
        | .error err => some (Violation.EnvironmentResolutionError err)
        | .ok _ => none) ∧
    (∀ (s : Service) (errs : List Violation) (err : GoError),
      m.ServiceEnvironment s.Name = .error err →
        m.envStep errs s = errs ++ [Violation.EnvironmentResolutionError err]) ∧
    (∀ (s : Service) (errs : List Violation) (env : Environment),
      m.ServiceEnvironment s.Name = .ok env → m.envStep errs s = errs) ∧
    (∀ (err : GoError) (quote : String → String),
      (Violation.EnvironmentResolutionError err).Error quote = err.Error) ∧
    (∀ v ∈ m.validateEnv, ∃ s ∈ m.Services,
      m.ServiceEnvironment s.Name = .error (GoError.mk (v.Error id)) ∧
        v = Violation.EnvironmentResolutionError (GoError.mk (v.Error id))) := by
  have hmap : m.validateEnv =
      m.Services.filterMap (fun s =>
        match m.ServiceEnvironment s.Name with
        | .error err => some (Violation.EnvironmentResolutionError err)
        | .ok _ => none) := by
    rw [validateEnv_eq]
    induction m.Services with
    | nil => rfl
    | cons s ss ih =>
      rw [List.flatMap_cons, ih, List.filterMap_cons]
      unfold Manifest.envStep
      cases m.ServiceEnvironment s.Name <;> simp
  refine ⟨hmap, ?_, ?_, fun _ _ => rfl, ?_⟩
  · intro s errs err he
    unfold Manifest.envStep
    rw [he]
  · intro s errs env he
    unfold Manifest.envStep
    rw [he]
  · intro v hv
    rw [hmap, List.mem_filterMap] at hv
    obtain ⟨s, hs, hv⟩ := hv
    refine ⟨s, hs, ?_⟩
    cases he : m.ServiceEnvironment s.Name with
    | ok env =>
      rw [he] at hv
      cases hv
    | error err =>
      rw [he] at hv
      cases hv
      exact ⟨rfl, rfl⟩

/-- C11, at a manifest with the services `api`, `worker` and `web`, of which only the
environment of `api` resolves. -/
theorem validateEnv_collects_errors_witness :
    failingEnvManifest.validateEnv =
      [Violation.EnvironmentResolutionError ⟨"environment of worker unresolved"⟩,
        Violation.EnvironmentResolutionError ⟨"environment of web unresolved"⟩] :=
  (validateEnv_collects_errors failingEnvManifest).1.trans (by decide)

/-- C12. Violations of different groups are all reported: when a service of the
manifest has a name outside the naming grammar and `Service` fails with the "not
found" error for the service of a timer of the manifest, the result of `validate`
has at least two errors, among them the `InvalidName` error of that service and the
`DanglingServiceReference` error of that timer, the former before the latter. -/
theorem violations_of_two_groups (m : Manifest) (s : Service) (t : Timer) (e : GoError)
    (hs : s ∈ m.Services) (hname : ¬ NameGrammar s.Name) (ht : t ∈ m.Timers)
    (he : m.Service t.Service = .error e)
    (htext : strings.HasPrefix e.Error "no such service" = true) :
    2 ≤ m.validate.length ∧
    Violation.InvalidName .service s.Name ∈ m.validate ∧
    Violation.DanglingServiceReference t.Name t.Service ∈ m.validate ∧
    ∃ pre mid post, m.validate =
      pre ++ [Violation.InvalidName .service s.Name] ++ mid ++
        [Violation.DanglingServiceReference t.Name t.Service] ++ post := by
  have hmatch : nameValidator.MatchString s.Name = false := by
    rw [Bool.eq_false_iff, Ne, MatchString_nameValidator]
    exact hname
  have h1 : Violation.InvalidName .service s.Name ∈ m.validateServices := by
    rw [validateServices_eq, List.mem_flatMap]
    exact ⟨s, hs, mem_serviceStep_invalidName m s hmatch⟩
  have hnf : m.serviceNotFound t.Service = true := by
    unfold Manifest.serviceNotFound
    rw [he]
    exact htext
  have h2 : Violation.DanglingServiceReference t.Name t.Service ∈ m.validateTimers := by
    rw [validateTimers_eq, List.mem_flatMap]
    exact ⟨t, ht, (mem_timerStep_dangling m t _ _).mpr ⟨rfl, rfl, hnf⟩⟩
  obtain ⟨a, b, hab⟩ := List.append_of_mem h1
  obtain ⟨c, d, hcd⟩ := List.append_of_mem h2
  have hsplit : m.validate =
      (m.validateEnv ++ m.validateResources ++ a) ++ [Violation.InvalidName .service s.Name] ++
        (b ++ c) ++ [Violation.DanglingServiceReference t.Name t.Service] ++ d := by
    rw [validate_eq, hab, hcd]
    simp
  refine ⟨?_, ?_, ?_, _, _, _, hsplit⟩
  · rw [hsplit]
    simp only [List.length_append, List.length_singleton]
    omega
  · rw [hsplit]
    simp
  · rw [hsplit]
    simp

/-- C12, at the manifest with the service `API` and the timer `nightly` of the
nonexistent service `ghost`. -/
theorem violations_of_two_groups_witness :
    2 ≤ mixedManifest.validate.length ∧
    Violation.InvalidName .service "API" ∈ mixedManifest.validate ∧
    Violation.DanglingServiceReference "nightly" "ghost" ∈ mixedManifest.validate ∧
    ∃ pre mid post, mixedManifest.validate =
      pre ++ [Violation.InvalidName .service "API"] ++ mid ++
        [Violation.DanglingServiceReference "nightly" "ghost"] ++ post :=
  violations_of_two_groups mixedManifest ⟨"API", ⟨50, 150⟩, []⟩
    ⟨"nightly", "ghost", "0 * * * *"⟩ ⟨"no such service: ghost"⟩ (by decide)
    (fun h => absurd ((MatchString_nameValidator "API").mpr h) (by decide))
    (by decide) rfl (by decide)

/-- C13. The deployment bounds are checked independently per field: the errors about
Minimum that one pass of the loop of `validateServices` appends are determined by
Minimum alone, those about Maximum by Maximum alone, whatever the manifest and the
rest of the service, and there is no other deployment error, so none compares the
two fields. A service with a valid name, no reference that fails with "not found"
and deployment {90, 100} yields no error of the service rule group. -/
theorem bounds_checked_independently (m m' : Manifest) (s s' : Service) :
    (m.serviceStep [] s).filter Violation.isMinimum =
      (if s.Deployment.Minimum < 0 then [Violation.DeploymentMinTooLow s.Name] else []) ++
      (if s.Deployment.Minimum > 100 then [Violation.DeploymentMinTooHigh s.Name]
        else []) ∧
    (m.serviceStep [] s).filter Violation.isMaximum =
      (if s.Deployment.Maximum < 100 then [Violation.DeploymentMaxTooLow s.Name] else []) ++
      (if s.Deployment.Maximum > 200 then [Violation.DeploymentMaxTooHigh s.Name]
        else []) ∧
    (s.Deployment.Minimum = s'.Deployment.Minimum →
      ((m.serviceStep [] s).filter Violation.isMinimum).map Violation.kind =
        ((m'.serviceStep [] s').filter Violation.isMinimum).map Violation.kind) ∧
    (s.Deployment.Maximum = s'.Deployment.Maximum →
      ((m.serviceStep [] s).filter Violation.isMaximum).map Violation.kind =
        ((m'.serviceStep [] s').filter Violation.isMaximum).map Violation.kind) ∧
    (m.serviceStep [] s).filter Violation.isDeployment =
      (m.serviceStep [] s).filter Violation.isMinimum ++
        (m.serviceStep [] s).filter Violation.isMaximum ∧
    (nameValidator.MatchString s.Name = true →
      (∀ r ∈ s.ResourceMap, ∀ e, m.Resource r.Name = .error e →
        strings.HasPrefix e.Error "no such resource" = false) →
      s.Deployment = ⟨90, 100⟩ →
        m.serviceStep [] s = [] ∧ (m.withServices [s]).validateServices = []) := by
  refine ⟨filter_isMinimum_serviceStep m s, filter_isMaximum_serviceStep m s, ?_, ?_, ?_, ?_⟩
  · intro h
    rw [filter_isMinimum_serviceStep, filter_isMinimum_serviceStep, h]
    by_cases h1 : s'.Deployment.Minimum < 0 <;>
      by_cases h2 : s'.Deployment.Minimum > 100 <;> simp [h1, h2, Violation.kind]
  · intro h
    rw [filter_isMaximum_serviceStep, filter_isMaximum_serviceStep, h]
    by_cases h1 : s'.Deployment.Maximum < 100 <;>
      by_cases h2 : s'.Deployment.Maximum > 200 <;> simp [h1, h2, Violation.kind]
  · rw [filter_isDeployment_serviceStep, filter_isMinimum_serviceStep,
      filter_isMaximum_serviceStep]
    simp
  · intro hname hrefs hdep
    have hstep : m.serviceStep [] s = [] := by
      have hnil : s.ResourceMap.flatMap (m.resourceRefStep s []) = [] := by
        rw [List.flatMap_eq_nil_iff]
        exact fun r hr => (resourceRefStep_eq_nil m s r).mpr (hrefs r hr)
      rw [serviceStep_eq, hname, hnil, hdep]
      simp
    refine ⟨hstep, ?_⟩
    rw [validateServices_withServices]
    simp [hstep]

/-- C13, at the service `api` of the example manifest with the deployment {90, 100},
and at two services of which one has the window {-5, 150} and the other {-5, 300}. -/
theorem bounds_checked_independently_witness :
    (exampleManifest.withServices
      [⟨"api", ⟨90, 100⟩, [⟨"db", "db-1"⟩]⟩]).validateServices = [] ∧
    ((exampleManifest.serviceStep [] ⟨"api", ⟨-5, 150⟩, []⟩).filter
        Violation.isMinimum).map Violation.kind =
      ((mixedManifest.serviceStep [] ⟨"web", ⟨-5, 300⟩, []⟩).filter
        Violation.isMinimum).map Violation.kind :=
  ⟨((bounds_checked_independently exampleManifest exampleManifest
      ⟨"api", ⟨90, 100⟩, [⟨"db", "db-1"⟩]⟩ ⟨"api", ⟨90, 100⟩, []⟩).2.2.2.2.2
      (by decide)
      (by
        intro r hr e he
        simp only [List.mem_singleton] at hr
        subst hr
        cases he)
      rfl).2,
    (bounds_checked_independently exampleManifest mixedManifest
      ⟨"api", ⟨-5, 150⟩, []⟩ ⟨"web", ⟨-5, 300⟩, []⟩).2.2.1 rfl⟩

/-- C14. Duplicate names are not detected. With the lookups kept, adding an entity to
a collection appends to the result of each rule group exactly what one pass of the
loop yields for that entity alone, whether or not its name already occurs: for a
resource its own resource errors, for a service its own environment and service
errors, for a timer its own timer errors. With lookups that search the collections,
adding a resource or a service whose name already occurs leaves the lookups as they
were. Two resources of the same valid name with types that are not blank yield an
empty result of `validateResources`. -/
theorem duplicate_names_not_detected (m : Manifest) :
    (∀ r : Resource, (m.withResources (m.Resources ++ [r])).validate =
      m.validateEnv ++ (m.validateResources ++ m.resourceStep [] r) ++ m.validateServices ++
        m.validateTimers) ∧
    (∀ s : Service, (m.withServices (m.Services ++ [s])).validate =
      (m.validateEnv ++ m.envStep [] s) ++ m.validateResources ++
        (m.validateServices ++ m.serviceStep [] s) ++ m.validateTimers) ∧
    (∀ t : Timer, (m.withTimers (m.Timers ++ [t])).validate =
      m.validateEnv ++ m.validateResources ++ m.validateServices ++
        (m.validateTimers ++ m.timerStep [] t)) ∧
    (∀ (rs : List Resource) (ss : List Service) (ts : List Timer)
        (env : String → Except GoError Environment) (r : Resource),
      (∃ r₀ ∈ rs, r₀.Name = r.Name) →
        Manifest.ofLists (rs ++ [r]) ss ts env =
          (Manifest.ofLists rs ss ts env).withResources (rs ++ [r])) ∧
    (∀ (rs : List Resource) (ss : List Service) (ts : List Timer)
        (env : String → Except GoError Environment) (s : Service),
      (∃ s₀ ∈ ss, s₀.Name = s.Name) →
        Manifest.ofLists rs (ss ++ [s]) ts env =
          (Manifest.ofLists rs ss ts env).withServices (ss ++ [s])) ∧
    (∀ (rs : List Resource) (ss : List Service) (ts : List Timer)
        (env : String → Except GoError Environment) (t : Timer),
      Manifest.ofLists rs ss (ts ++ [t]) env =
        (Manifest.ofLists rs ss ts env).withTimers (ts ++ [t])) ∧
    (∀ r r' : Resource, r'.Name = r.Name → nameValidator.MatchString r.Name = true →
      strings.TrimSpace r.«Type» ≠ "" → strings.TrimSpace r'.«Type» ≠ "" →
        (m.withResources [r, r']).validateResources = []) := by
  refine ⟨?_, ?_, ?_, ?_, ?_, ?_, ?_⟩
  · intro r
    rw [validate_eq, validateResources_withResources, validateEnv_eq, validateServices_eq,
      validateTimers_eq, validateEnv_eq m, validateResources_eq m, validateServices_eq m,
      validateTimers_eq m]
    simp [Manifest.withResources]
    rfl
  · intro s
    rw [validate_eq, validateServices_withServices, validateEnv_withServices,
      validateResources_eq, validateTimers_eq, validateEnv_eq m, validateResources_eq m,
      validateServices_eq m, validateTimers_eq m]
    simp [Manifest.withServices]
    rfl
  · intro t
    rw [validate_eq, validateTimers_withTimers, validateEnv_eq, validateResources_eq,
      validateServices_eq, validateEnv_eq m, validateResources_eq m, validateServices_eq m,
      validateTimers_eq m]
    simp [Manifest.withTimers]
    rfl
  · rintro rs ss ts env r ⟨r₀, h₀, hname⟩
    simp only [Manifest.ofLists, Manifest.withResources,
      findResource_append_dup rs r r₀ h₀ hname]
  · rintro rs ss ts env s ⟨s₀, h₀, hname⟩
    simp only [Manifest.ofLists, Manifest.withServices,
      findService_append_dup ss s s₀ h₀ hname]
  · intro rs ss ts env t
    rfl
  · intro r r' hname hmatch hty hty'
    rw [validateResources_withResources]
    simp [resourceStep_eq, hname, hmatch, hty, hty']

/-- C14, at the example manifest with its resource `db-1` declared twice: the result
of `validate` is still empty. -/
theorem duplicate_names_not_detected_witness : duplicateResourceManifest.validate = [] :=
  have h := duplicate_names_not_detected exampleManifest
  (congrArg Manifest.validate
    (h.2.2.2.1 [⟨"db-1", "postgres"⟩] [⟨"api", ⟨50, 150⟩, [⟨"db", "db-1"⟩]⟩] []
      (fun _ => .ok []) ⟨"db-1", "mysql"⟩ ⟨⟨"db-1", "postgres"⟩, by simp, rfl⟩)).trans
    ((h.1 ⟨"db-1", "mysql"⟩).trans (by decide))

/-- C16. Each rule group is a per-entity map in the order of the manifest. With the
lookups kept, a group yields nothing on an empty collection and, on a collection
`xs ++ ys`, its result on `xs` followed by its result on `ys`; so a collection
without entities gets no error and the errors of an earlier entity precede those of
a later one. Within one entity the order is: for a resource the name, then the blank
type; for a service the name, Minimum too low, Minimum too high, Maximum too low,
Maximum too high, then the dangling references in the order of the resource-map; for
a timer the name, the dangling service, the schedule. -/
theorem rule_groups_map_entities (m : Manifest) :
    ((m.withServices []).validateEnv = [] ∧ (m.withResources []).validateResources = [] ∧
      (m.withServices []).validateServices = [] ∧ (m.withTimers []).validateTimers = []) ∧
    (∀ xs ys : List Service, (m.withServices (xs ++ ys)).validateEnv =
      (m.withServices xs).validateEnv ++ (m.withServices ys).validateEnv) ∧
    (∀ xs ys : List Resource, (m.withResources (xs ++ ys)).validateResources =
      (m.withResources xs).validateResources ++ (m.withResources ys).validateResources) ∧
    (∀ xs ys : List Service, (m.withServices (xs ++ ys)).validateServices =
      (m.withServices xs).validateServices ++ (m.withServices ys).validateServices) ∧
    (∀ xs ys : List Timer, (m.withTimers (xs ++ ys)).validateTimers =
      (m.withTimers xs).validateTimers ++ (m.withTimers ys).validateTimers) ∧
    ((m.Services = [] → m.validateEnv = [] ∧ m.validateServices = []) ∧
      (m.Resources = [] → m.validateResources = []) ∧
      (m.Timers = [] → m.validateTimers = [])) ∧
    (m.validateEnv = m.Services.flatMap (m.envStep []) ∧
      m.validateResources = m.Resources.flatMap (m.resourceStep []) ∧
      m.validateServices = m.Services.flatMap (m.serviceStep []) ∧
      m.validateTimers = m.Timers.flatMap (m.timerStep [])) ∧
    (∀ r : Resource, m.resourceStep [] r =
      (if nameValidator.MatchString r.Name = true then []
        else [Violation.InvalidName .resource r.Name]) ++
      (if strings.TrimSpace r.«Type» = "" then [Violation.BlankType r.Name] else [])) ∧
    (∀ s : Service, m.serviceStep [] s =
      (if nameValidator.MatchString s.Name = true then []
        else [Violation.InvalidName .service s.Name]) ++
      (if s.Deployment.Minimum < 0 then [Violation.DeploymentMinTooLow s.Name] else []) ++
      (if s.Deployment.Minimum > 100 then [Violation.DeploymentMinTooHigh s.Name] else []) ++
      (if s.Deployment.Maximum < 100 then [Violation.DeploymentMaxTooLow s.Name] else []) ++
      (if s.Deployment.Maximum > 200 then [Violation.DeploymentMaxTooHigh s.Name] else []) ++
      (s.ResourceMap.filter (fun r => m.resourceNotFound r.Name)).map
        (fun r => Violation.DanglingResourceReference s.Name r.Name)) ∧
    (∀ t : Timer, m.timerStep [] t =
      (if nameValidator.MatchString t.Name = true then []
        else [Violation.InvalidName .timer t.Name]) ++
      (if m.serviceNotFound t.Service = true then
        [Violation.DanglingServiceReference t.Name t.Service] else []) ++
      (if strings.Contains t.Schedule "?" = true then [Violation.InvalidSchedule t.Name]
        else [])) := by
  refine ⟨⟨rfl, rfl, rfl, rfl⟩, ?_, ?_, ?_, ?_, ⟨?_, ?_, ?_⟩,
    ⟨validateEnv_eq m, validateResources_eq m, validateServices_eq m, validateTimers_eq m⟩,
    ?_, ?_, timerStep_nil m⟩
  · intro xs ys
    simp only [validateEnv_withServices, List.flatMap_append]
  · intro xs ys
    simp only [validateResources_withResources, List.flatMap_append]
  · intro xs ys
    simp only [validateServices_withServices, List.flatMap_append]
  · intro xs ys
    simp only [validateTimers_withTimers, List.flatMap_append]
  · intro h
    rw [validateEnv_eq, validateServices_eq, h]
    exact ⟨rfl, rfl⟩
  · intro h
    rw [validateResources_eq, h]
    rfl
  · intro h
    rw [validateTimers_eq, h]
    rfl
  · intro r
    rw [resourceStep_eq, List.nil_append]
  · intro s
    rw [serviceStep_eq, List.nil_append, refs_eq_map_filter]

/-- C16, at the service `API` with the window {-1, 201} and references to the absent
resources `x` and `y`, in a manifest without resources: the five errors in their
order. -/
theorem rule_groups_map_entities_witness :
    mixedManifest.serviceStep [] ⟨"API", ⟨-1, 201⟩, [⟨"a", "x"⟩, ⟨"b", "y"⟩]⟩ =
      [Violation.InvalidName .service "API", Violation.DeploymentMinTooLow "API",
        Violation.DeploymentMaxTooHigh "API",
        Violation.DanglingResourceReference "API" "x",
        Violation.DanglingResourceReference "API" "y"] :=
  ((rule_groups_map_entities mixedManifest).2.2.2.2.2.2.2.2.1
    ⟨"API", ⟨-1, 201⟩, [⟨"a", "x"⟩, ⟨"b", "y"⟩]⟩).trans (by decide)

/-- C17. Passing the deployment checks implies an ordered window: when one pass of the
loop of `validateServices` appends no deployment error for a service, its window
satisfies 0 ≤ Minimum ≤ 100 ≤ Maximum ≤ 200, hence Minimum ≤ Maximum; so a service
with Minimum > Maximum gets at least one deployment error, and a service of a
manifest whose service rule group reports no deployment error has Minimum ≤
Maximum. -/
theorem ordered_window_of_no_deployment_error (m : Manifest) (s : Service) :
    ((m.serviceStep [] s).filter Violation.isDeployment = [] ↔
      (0 ≤ s.Deployment.Minimum ∧ s.Deployment.Minimum ≤ 100) ∧
        (100 ≤ s.Deployment.Maximum ∧ s.Deployment.Maximum ≤ 200)) ∧
    ((m.serviceStep [] s).filter Violation.isDeployment = [] →
      s.Deployment.Minimum ≤ 100 ∧ 100 ≤ s.Deployment.Maximum ∧
        s.Deployment.Minimum ≤ s.Deployment.Maximum) ∧
    (s.Deployment.Minimum > s.Deployment.Maximum →
      1 ≤ (m.serviceStep [] s).countP Violation.isDeployment) ∧
    (s ∈ m.Services → (∀ v ∈ m.validateServices, v.isDeployment = false) →
      s.Deployment.Minimum ≤ s.Deployment.Maximum) := by
  have hiff : (m.serviceStep [] s).filter Violation.isDeployment = [] ↔
      (0 ≤ s.Deployment.Minimum ∧ s.Deployment.Minimum ≤ 100) ∧
        (100 ≤ s.Deployment.Maximum ∧ s.Deployment.Maximum ≤ 200) := by
    rw [filter_isDeployment_serviceStep]
    simp only [List.append_eq_nil, ite_eq_right_iff, reduceCtorEq, imp_false, not_lt,
      gt_iff_lt]
    tauto
  refine ⟨hiff, ?_, ?_, ?_⟩
  · intro h
    have := hiff.mp h
    omega
  · intro hgt
    rw [countP_isDeployment_serviceStep]
    unfold ServiceDeployment.violatedBounds
    split_ifs <;> omega
  · intro hs hall
    have hnil : (m.serviceStep [] s).filter Violation.isDeployment = [] := by
      rw [List.filter_eq_nil_iff]
      intro v hv
      have hmem : v ∈ m.validateServices := by
        rw [validateServices_eq, List.mem_flatMap]
        exact ⟨s, hs, hv⟩
      simp [hall v hmem]
    have := hiff.mp hnil
    omega

/-- C17, at the service `api` with the window {150, 120}, whose Minimum exceeds its
Maximum: it gets a deployment error. -/
theorem ordered_window_of_no_deployment_error_witness :
    1 ≤ (exampleManifest.serviceStep [] ⟨"api", ⟨150, 120⟩, []⟩).countP
      Violation.isDeployment :=
  (ordered_window_of_no_deployment_error exampleManifest ⟨"api", ⟨150, 120⟩, []⟩).2.2.1
    (by decide)

/-- C18. The low and the high error of one bound exclude each other: one pass of the
loop of `validateServices` never appends both the error for Minimum < 0 and the one
for Minimum > 100, nor both the error for Maximum < 100 and the one for
Maximum > 200, so a service gets at most two deployment errors, and over the
manifest at most two per service. Every resource, service and timer gets at most
one `InvalidName` error. -/
theorem low_and_high_exclude (m : Manifest) (s : Service) :
    ¬ ((∃ v ∈ m.serviceStep [] s, v.kind = Kind.DeploymentMinTooLow) ∧
        (∃ v ∈ m.serviceStep [] s, v.kind = Kind.DeploymentMinTooHigh)) ∧
    ¬ ((∃ v ∈ m.serviceStep [] s, v.kind = Kind.DeploymentMaxTooLow) ∧
        (∃ v ∈ m.serviceStep [] s, v.kind = Kind.DeploymentMaxTooHigh)) ∧
    (m.serviceStep [] s).countP Violation.isDeployment ≤ 2 ∧
    m.validateServices.countP Violation.isDeployment ≤ 2 * m.Services.length ∧
    (m.serviceStep [] s).countP (fun v => decide (v.kind = Kind.InvalidName)) ≤ 1 ∧
    (∀ r : Resource,
      (m.resourceStep [] r).countP (fun v => decide (v.kind = Kind.InvalidName)) ≤ 1) ∧
    (∀ t : Timer,
      (m.timerStep [] t).countP (fun v => decide (v.kind = Kind.InvalidName)) ≤ 1) := by
  have hbound : ∀ s' : Service, s'.Deployment.violatedBounds ≤ 2 := by
    intro s'
    unfold ServiceDeployment.violatedBounds
    by_cases h2 : s'.Deployment.Minimum < 0 <;>
      by_cases h3 : s'.Deployment.Minimum > 100 <;>
      by_cases h4 : s'.Deployment.Maximum < 100 <;>
      by_cases h5 : s'.Deployment.Maximum > 200 <;> simp [h2, h3, h4, h5] <;> omega
  have hdep : ∀ (v : Violation) (k : Kind), v.kind = k →
      k ∈ [Kind.DeploymentMinTooLow, Kind.DeploymentMinTooHigh, Kind.DeploymentMaxTooLow,
        Kind.DeploymentMaxTooHigh] → v.isDeployment = true := by
    intro v k hk hmem
    unfold Violation.isDeployment
    rw [hk]
    exact decide_eq_true hmem
  have hcond : ∀ v ∈ m.serviceStep [] s, v.isDeployment = true →
      (v.kind = Kind.DeploymentMinTooLow ∧ s.Deployment.Minimum < 0) ∨
      (v.kind = Kind.DeploymentMinTooHigh ∧ s.Deployment.Minimum > 100) ∨
      (v.kind = Kind.DeploymentMaxTooLow ∧ s.Deployment.Maximum < 100) ∨
      (v.kind = Kind.DeploymentMaxTooHigh ∧ s.Deployment.Maximum > 200) := by
    intro v hv hd
    rcases mem_serviceStep_of_isDeployment m s v hv hd with
      ⟨rfl, h⟩ | ⟨rfl, h⟩ | ⟨rfl, h⟩ | ⟨rfl, h⟩
    · exact Or.inl ⟨rfl, h⟩
    · exact Or.inr (Or.inl ⟨rfl, h⟩)
    · exact Or.inr (Or.inr (Or.inl ⟨rfl, h⟩))
    · exact Or.inr (Or.inr (Or.inr ⟨rfl, h⟩))
  refine ⟨?_, ?_, ?_, ?_, ?_, ?_, ?_⟩
  · rintro ⟨⟨v, hv, hk⟩, ⟨w, hw, hk'⟩⟩
    have h1 := hcond v hv (hdep v _ hk (by decide))
    have h2 := hcond w hw (hdep w _ hk' (by decide))
    rw [hk] at h1
    rw [hk'] at h2
    simp only [reduceCtorEq, false_and, or_false, false_or, true_and] at h1 h2
    omega
  · rintro ⟨⟨v, hv, hk⟩, ⟨w, hw, hk'⟩⟩
    have h1 := hcond v hv (hdep v _ hk (by decide))
    have h2 := hcond w hw (hdep w _ hk' (by decide))
    rw [hk] at h1
    rw [hk'] at h2
    simp only [reduceCtorEq, false_and, or_false, false_or, true_and] at h1 h2
    omega
  · rw [countP_isDeployment_serviceStep]
    exact hbound s
  · rw [validateServices_eq, countP_flatMap_eq]
    induction m.Services with
    | nil => simp
    | cons s' ss ih =>
      rw [List.map_cons, List.sum_cons, List.length_cons, countP_isDeployment_serviceStep]
      have := hbound s'
      omega
  · rw [List.countP_eq_length_filter,
      filter_serviceStep m s _ (fun _ _ => by simp [Violation.kind])]
    split_ifs <;> simp [Violation.kind]
  · intro r
    rw [resourceStep_eq, List.nil_append]
    by_cases h1 : nameValidator.MatchString r.Name = true <;>
      by_cases h2 : strings.TrimSpace r.«Type» = "" <;> simp [h1, h2, Violation.kind]
  · intro t
    rw [timerStep_nil]
    by_cases h1 : nameValidator.MatchString t.Name = true <;>
      by_cases h2 : m.serviceNotFound t.Service = true <;>
      by_cases h3 : strings.Contains t.Schedule "?" = true <;>
      simp [h1, h2, h3, Violation.kind]

/-- C18, at the service `api` with the window {-1, 201}, which violates one bound of
each field. -/
theorem low_and_high_exclude_witness :
    (exampleManifest.serviceStep [] ⟨"api", ⟨-1, 201⟩, []⟩).countP
      Violation.isDeployment ≤ 2 :=
  (low_and_high_exclude exampleManifest ⟨"api", ⟨-1, 201⟩, []⟩).2.2.1

end Convox
